import Mathlib

/-!
Verification development for the PH_Viz rendering/spatial-index subsystem.

The definitions in this file are a shallow embedding, over exact rational
arithmetic, of the C++ sources:
  src/Graphics/SpatialIndex.{hpp,cpp}   (octree build and queries)
  src/Graphics/RenderUtils.hpp          (Frustum plane extraction and AABB tests)
  src/Graphics/Model.{h,cpp}            (mesh records, GPU upload, subset draws)
  src/Graphics/Scene.cpp                (per-frame draw gating)
  src/Graphics/Culling/OcclusionCuller.{hpp,cpp}
  src/Graphics/Utils.hpp                (Config constants, half-float packing)

Floating-point values are modelled as exact rationals; where the source
compares a Euclidean length (a square root) against a threshold, the
embedding compares squared quantities with the sign analysis spelled out so
the Boolean outcome agrees with the exact-real semantics of the source
expression (see sqrtGtB and sizeOverDistBelowB).  Bit-level operations
(half-float packing) are modelled directly on IEEE-754 bit patterns as
naturals.  GPU calls are modelled by recording the buffer contents and draw
commands they would produce.
-/

namespace Graphics

/-- Rational stand-in for glm::vec3. -/
structure Vec3 where
  x : ℚ
  y : ℚ
  z : ℚ
deriving DecidableEq, Repr

instance : Inhabited Vec3 := ⟨⟨0, 0, 0⟩⟩

/-- Componentwise order on vectors, used to state that an AABB is non-degenerate
and that one box is contained in another. -/
def Vec3.le (a b : Vec3) : Prop := a.x ≤ b.x ∧ a.y ≤ b.y ∧ a.z ≤ b.z

instance (a b : Vec3) : Decidable (Vec3.le a b) := by
  unfold Vec3.le; infer_instance

/-- Membership of a point in the AABB with corners mn, mx. -/
def inAABB (mn mx p : Vec3) : Prop := Vec3.le mn p ∧ Vec3.le p mx

/-- Node::center(): 0.5f * (min + max). -/
def centerOf (mn mx : Vec3) : Vec3 :=
  ⟨(mn.x + mx.x) / 2, (mn.y + mx.y) / 2, (mn.z + mx.z) / 2⟩

/-- Node::maxDim(): largest component of (max - min). -/
def maxDim (mn mx : Vec3) : ℚ :=
  max (mx.x - mn.x) (max (mx.y - mn.y) (mx.z - mn.z))

/-- Squared length of the box diagonal (max - min).  Not computed anywhere
in the source: it appears only in the statement of results contrasting the
spec's angular-size measure (diagonal / distance) with the measure the code
actually uses (maxDim / distance). -/
def boxDiagSq (mn mx : Vec3) : ℚ :=
  (mx.x - mn.x) ^ 2 + (mx.y - mn.y) ^ 2 + (mx.z - mn.z) ^ 2

/-- Squared Euclidean distance between two points (the source takes
glm::length of the difference; only comparisons of that length against
thresholds occur, which we carry out on the square). -/
def distSqPoints (a b : Vec3) : ℚ :=
  (a.x - b.x) ^ 2 + (a.y - b.y) ^ 2 + (a.z - b.z) ^ 2

/-- Octree::distanceToAABB, squared: clamp the point into the box per axis and
take the squared Euclidean distance to the clamped point (SpatialIndex.cpp
lines 191-197). -/
def distSqToAABB (p mn mx : Vec3) : ℚ :=
  let cx := max mn.x (min p.x mx.x)
  let cy := max mn.y (min p.y mx.y)
  let cz := max mn.z (min p.z mx.z)
  (p.x - cx) ^ 2 + (p.y - cy) ^ 2 + (p.z - cz) ^ 2

/-- Exact-real semantics of the comparison sqrt dSq > m for dSq ≥ 0: true iff
m is negative or m² < dSq.  The source compares a glm::length (always ≥ 0)
against a threshold; squaring both sides is valid exactly when the threshold
is nonnegative, and a negative threshold is always exceeded. -/
def sqrtGtB (dSq m : ℚ) : Bool :=
  decide (m < 0) || decide (m ^ 2 < dSq)

/-- Exact-real semantics of nodeSize / nodeDist < 1/100 where
nodeDist = sqrt dSq (SpatialIndex.cpp line 159).  When nodeDist = 0 the
source divides by zero in float arithmetic, producing +inf (nodeSize > 0)
or NaN (nodeSize = 0), and either way the comparison with 0.01f is false;
hence the 0 < dSq conjunct.  For nodeDist > 0 the comparison is equivalent
to 100·nodeSize < nodeDist, which for negative nodeSize always holds and
otherwise may be squared. -/
def sizeOverDistBelowB (s dSq : ℚ) : Bool :=
  decide (0 < dSq) && (decide (s < 0) || decide (10000 * s ^ 2 < dSq))

/-- One frustum plane ax + by + cz + d ≥ 0 (inside half-space), as stored in
Frustum::mPlanes. -/
structure Plane where
  a : ℚ
  b : ℚ
  c : ℚ
  d : ℚ
deriving DecidableEq, Repr

/-- Signed distance from a point to a plane: dot(normal, p) + plane.w
(RenderUtils.hpp line 281). -/
def Plane.dist (p : Plane) (v : Vec3) : ℚ :=
  p.a * v.x + p.b * v.y + p.c * v.z + p.d

/-- The AABB corner most positive along the plane normal (RenderUtils.hpp
lines 275-278: per axis, the max coordinate when the normal component is
strictly positive, the min coordinate otherwise). -/
def positiveVertex (p : Plane) (mn mx : Vec3) : Vec3 :=
  ⟨if p.a > 0 then mx.x else mn.x,
   if p.b > 0 then mx.y else mn.y,
   if p.c > 0 then mx.z else mn.z⟩

/-- The opposite corner: least positive along the plane normal.  Not in the
source; used only to state hypotheses of the form "the whole box lies inside
the half-space" in a decidable way. -/
def negativeVertex (p : Plane) (mn mx : Vec3) : Vec3 :=
  ⟨if p.a > 0 then mn.x else mx.x,
   if p.b > 0 then mn.y else mx.y,
   if p.c > 0 then mn.z else mx.z⟩

/-- A frustum is the list of its (six, in the source) planes. -/
abbrev Frustum := List Plane

/-- Frustum::intersectsAABB (RenderUtils.hpp lines 267-291): cull (return
false) iff for some plane the positive vertex has negative signed distance;
otherwise report potentially visible. -/
def Frustum.intersectsAABB (planes : Frustum) (mn mx : Vec3) : Bool :=
  planes.all (fun p => !decide (p.dist (positiveVertex p mn mx) < 0))

/-- Column-major 4x4 matrix as in glm: M c r is viewProj[c][r]. -/
abbrev Mat4 := Fin 4 → Fin 4 → ℚ

/-- Frustum::extractFromMatrix (RenderUtils.hpp lines 208-264): the six
planes derived from a combined view-projection matrix by row
addition/subtraction, in the order left, right, bottom, top, near, far.
The source then normalizes each plane by the length of its normal (skipping
degenerate near-zero normals); dividing a plane by a positive scalar changes
neither the positive-vertex selection (the signs of the normal components)
nor the sign of any signed distance, so every Boolean result of
intersectsAABB is unchanged and the embedding, working over ℚ where the
square root is unavailable, omits the normalization.  This invariance is
proved below (intersectsAABB_scale_invariant). -/
def extractPlanes (M : Mat4) : Frustum :=
  [⟨M 0 3 + M 0 0, M 1 3 + M 1 0, M 2 3 + M 2 0, M 3 3 + M 3 0⟩,
   ⟨M 0 3 - M 0 0, M 1 3 - M 1 0, M 2 3 - M 2 0, M 3 3 - M 3 0⟩,
   ⟨M 0 3 + M 0 1, M 1 3 + M 1 1, M 2 3 + M 2 1, M 3 3 + M 3 1⟩,
   ⟨M 0 3 - M 0 1, M 1 3 - M 1 1, M 2 3 - M 2 1, M 3 3 - M 3 1⟩,
   ⟨M 0 3 + M 0 2, M 1 3 + M 1 2, M 2 3 + M 2 2, M 3 3 + M 3 2⟩,
   ⟨M 0 3 - M 0 2, M 1 3 - M 1 2, M 2 3 - M 2 2, M 3 3 - M 3 2⟩]

/-- glm::vec3(M * vec4(p, 1)): affine transform of a point by a column-major
matrix, dropping the w component. -/
def transformPoint (M : Mat4) (p : Vec3) : Vec3 :=
  ⟨M 0 0 * p.x + M 1 0 * p.y + M 2 0 * p.z + M 3 0,
   M 0 1 * p.x + M 1 1 * p.y + M 2 1 * p.z + M 3 1,
   M 0 2 * p.x + M 1 2 * p.y + M 2 2 * p.z + M 3 2⟩

/-- Componentwise minimum (glm::min). -/
def vecMin (a b : Vec3) : Vec3 := ⟨min a.x b.x, min a.y b.y, min a.z b.z⟩

/-- Componentwise maximum (glm::max). -/
def vecMax (a b : Vec3) : Vec3 := ⟨max a.x b.x, max a.y b.y, max a.z b.z⟩

/-- The eight AABB corners in the order of RenderUtils.hpp lines 297-304. -/
def aabbCorners (mn mx : Vec3) : List Vec3 :=
  [⟨mn.x, mn.y, mn.z⟩, ⟨mx.x, mn.y, mn.z⟩, ⟨mn.x, mx.y, mn.z⟩, ⟨mx.x, mx.y, mn.z⟩,
   ⟨mn.x, mn.y, mx.z⟩, ⟨mx.x, mn.y, mx.z⟩, ⟨mn.x, mx.y, mx.z⟩, ⟨mx.x, mx.y, mx.z⟩]

/-- Frustum::intersectsTransformedAABB (RenderUtils.hpp lines 294-316):
transform the 8 corners, rebuild a world-space AABB from their
componentwise min/max, and run the box-vs-frustum test. -/
def Frustum.intersectsTransformedAABB (planes : Frustum) (mn mx : Vec3) (M : Mat4) : Bool :=
  let corners := (aabbCorners mn mx).map (transformPoint M)
  let c0 := corners.headD default
  let tMin := (corners.drop 1).foldl vecMin c0
  let tMax := (corners.drop 1).foldl vecMax c0
  Frustum.intersectsAABB planes tMin tMax

/-- Octree::Node (SpatialIndex.hpp lines 20-34).  The eight
std::unique_ptr child slots are modelled by the list of non-null children
in octant order: every use in the source (buildRecursive, the queries)
iterates the slots in index order and skips null entries, so no observable
behaviour depends on which octant a present child sits in.  A node
constructed as internal always carries an empty pointIndices list, exactly
as in the source where only the leaf branches ever assign it. -/
inductive Node : Type where
  | mk (nmin nmax : Vec3) (level : Nat) (isLeaf : Bool) (pointIndices : List Nat)
      (children : List Node) : Node
deriving Repr

def Node.nmin : Node → Vec3
  | .mk v _ _ _ _ _ => v

def Node.nmax : Node → Vec3
  | .mk _ v _ _ _ _ => v

def Node.level : Node → Nat
  | .mk _ _ l _ _ _ => l

def Node.isLeaf : Node → Bool
  | .mk _ _ _ lf _ _ => lf

def Node.pointIndices : Node → List Nat
  | .mk _ _ _ _ pis _ => pis

def Node.children : Node → List Node
  | .mk _ _ _ _ _ cs => cs

mutual

/-- All nodes of the subtree rooted at a node, the node itself included. -/
def Node.subnodes : Node → List Node
  | .mk a b l lf pis cs => .mk a b l lf pis cs :: subnodesL cs

def subnodesL : List Node → List Node
  | [] => []
  | c :: cs => c.subnodes ++ subnodesL cs

end

mutual

/-- The concatenation, in depth-first octant order, of the pointIndices
lists of all leaves below (and including) a node. -/
def Node.allLeafIndices : Node → List Nat
  | .mk _ _ _ true pis _ => pis
  | .mk _ _ _ false _ cs => allLeafIndicesL cs

def allLeafIndicesL : List Node → List Nat
  | [] => []
  | c :: cs => c.allLeafIndices ++ allLeafIndicesL cs

end

/-- Octree::getChildIndex (SpatialIndex.cpp lines 205-211): octant of a point
relative to a center, bit 1 for x ≥ center.x, bit 2 for y, bit 4 for z. -/
def getChildIndex (p center : Vec3) : Nat :=
  (if p.x ≥ center.x then 1 else 0) +
  (if p.y ≥ center.y then 2 else 0) +
  (if p.z ≥ center.z then 4 else 0)

/-- Child octant box minimum corner (SpatialIndex.cpp lines 46-50): per axis,
the center coordinate when the corresponding octant bit is set, the parent
minimum otherwise. -/
def childMin (i : Nat) (nmin center : Vec3) : Vec3 :=
  ⟨if i &&& 1 ≠ 0 then center.x else nmin.x,
   if i &&& 2 ≠ 0 then center.y else nmin.y,
   if i &&& 4 ≠ 0 then center.z else nmin.z⟩

/-- Child octant box maximum corner (SpatialIndex.cpp lines 51-55). -/
def childMax (i : Nat) (nmax center : Vec3) : Vec3 :=
  ⟨if i &&& 1 ≠ 0 then nmax.x else center.x,
   if i &&& 2 ≠ 0 then nmax.y else center.y,
   if i &&& 4 ≠ 0 then nmax.z else center.z⟩

/-- The indices among the given ones whose point falls in octant i
(SpatialIndex.cpp lines 58-66).  The source guard 0 ≤ childIdx < 8 always
holds since getChildIndex only sets bits 1, 2, 4.  An out-of-range index
reads a default point, as the recursion only ever passes indices below the
point count this case never arises in a built tree. -/
def childFilter (points : List Vec3) (indices : List Nat) (center : Vec3) (i : Nat) : List Nat :=
  indices.filter (fun idx => getChildIndex (points.getD idx default) center == i)

/-- The closing check of Octree::buildRecursive (SpatialIndex.cpp lines
79-91): given the list of children actually created, an internal node is
formed when at least one child exists; with no children the node reverts to
a leaf keeping its original indices.  Internal nodes carry an empty
pointIndices list, as in the source where the subdivision path never
assigns it. -/
def buildNode (nmin nmax : Vec3) (level : Nat) (indices : List Nat) (cs : List Node) : Node :=
  if cs.isEmpty then .mk nmin nmax level true indices []
  else .mk nmin nmax level false [] cs

/-- Octree::buildRecursive (SpatialIndex.cpp lines 27-92).  A node becomes a
leaf holding the given indices when the count is within maxPointsPerNode or
the depth limit is reached; otherwise the indices are split by octant
(relative to the node center), a child is built for every non-empty octant,
and buildNode performs the closing no-children check. -/
def buildRecursive (points : List Vec3) (indices : List Nat) (nmin nmax : Vec3)
    (level mpp md : Nat) : Node :=
  if h : indices.length ≤ mpp ∨ md ≤ level then
    .mk nmin nmax level true indices []
  else
    buildNode nmin nmax level indices ((List.range 8).filterMap (fun i =>
      if (childFilter points indices (centerOf nmin nmax) i).isEmpty then none
      else some (buildRecursive points (childFilter points indices (centerOf nmin nmax) i)
        (childMin i nmin (centerOf nmin nmax)) (childMax i nmax (centerOf nmin nmax))
        (level + 1) mpp md)))
termination_by md - level
decreasing_by omega

/-- Fuel-indexed twin of buildRecursive, structurally recursive so that the
kernel can evaluate it on concrete inputs (buildRecursive is defined by
well-founded recursion on md - level and therefore does not reduce
definitionally).  For any fuel ≥ md - level it coincides with
buildRecursive (theorem buildRecursive_eq_fuel below); the fuel-exhausted
branch is unreachable under that bound since the subdivision branch
requires level < md. -/
def buildFuel (points : List Vec3) (mpp md : Nat) :
    Nat → List Nat → Vec3 → Vec3 → Nat → Node
  | fuel, indices, nmin, nmax, level =>
    if indices.length ≤ mpp ∨ md ≤ level then
      .mk nmin nmax level true indices []
    else
      match fuel with
      | 0 => .mk nmin nmax level true indices []
      | fuel' + 1 =>
        buildNode nmin nmax level indices ((List.range 8).filterMap (fun i =>
          if (childFilter points indices (centerOf nmin nmax) i).isEmpty then none
          else some (buildFuel points mpp md fuel'
            (childFilter points indices (centerOf nmin nmax) i)
            (childMin i nmin (centerOf nmin nmax)) (childMax i nmax (centerOf nmin nmax))
            (level + 1))))

instance : Inhabited Node := ⟨.mk default default 0 true [] []⟩

/-- The octree object: the nullable root (Octree::mRoot).  The node-count and
max-depth diagnostics are not needed by any claim and are omitted. -/
structure Octree where
  root : Option Node
deriving Repr

/-- The root of a built octree (build always installs a root). -/
def Octree.rootD (t : Octree) : Node := t.root.getD default

/-- Octree::build (SpatialIndex.cpp lines 7-25): collect the positional
indices 0..n-1 of all points and build recursively from the given overall
box at level 0.  The Point::index field is never read by the octree code, so
points are just positions here. -/
def Octree.build (points : List Vec3) (mn mx : Vec3) (mpp md : Nat) : Octree :=
  ⟨some (buildRecursive points (List.range points.length) mn mx 0 mpp md)⟩

mutual

/-- Octree::getVisiblePointsRecursive (SpatialIndex.cpp lines 110-135):
prune when the box is farther than maxDistance from the camera or fails the
frustum test; a surviving leaf contributes its pointIndices; a surviving
internal node recurses into its children in octant order.  The source
re-extracts the same frustum from viewProj at every node; the planes are
passed explicitly here.  The distance comparison is carried out on squares
via sqrtGtB. -/
def getVisRec (planes : Frustum) (camPos : Vec3) (maxDistance : ℚ) : Node → List Nat
  | .mk mn mx _ lf pis cs =>
    if sqrtGtB (distSqToAABB camPos mn mx) maxDistance then []
    else if !Frustum.intersectsAABB planes mn mx then []
    else if lf then pis
    else getVisRecL planes camPos maxDistance cs

def getVisRecL (planes : Frustum) (camPos : Vec3) (maxDistance : ℚ) : List Node → List Nat
  | [] => []
  | c :: cs => getVisRec planes camPos maxDistance c ++ getVisRecL planes camPos maxDistance cs

end

/-- Octree::getVisiblePoints (SpatialIndex.cpp lines 94-108): empty on a null
root, otherwise the recursive traversal with the frustum extracted from the
view-projection matrix. -/
def Octree.getVisiblePoints (t : Octree) (viewProj : Mat4) (camPos : Vec3)
    (maxDistance : ℚ) : List Nat :=
  match t.root with
  | none => []
  | some r => getVisRec (extractPlanes viewProj) camPos maxDistance r

/-- The collection step of SpatialIndex.cpp lines 166-174: the pointIndices
of those children that are leaves, in octant order; non-leaf children are
skipped entirely. -/
def leafChildIndices : List Node → List Nat
  | [] => []
  | c :: cs => (if c.isLeaf then c.pointIndices else []) ++ leafChildIndices cs

mutual

/-- Octree::getLODPointsRecursive (SpatialIndex.cpp lines 149-183).  The node
is used directly when it is farther from the camera than farThreshold or
when maxDim / distance < 0.01 (both comparisons on squares, with the
division-by-zero case of the source's float arithmetic made explicit in
sizeOverDistBelowB); a leaf then contributes its own pointIndices while an
internal node contributes the pointIndices of its leaf children only.
Otherwise the traversal recurses into the children.  The distance and
nearThreshold parameters are accepted and ignored exactly as in the
source. -/
def getLODRec (camPos : Vec3) (distance farThreshold nearThreshold : ℚ) : Node → List Nat
  | .mk mn mx _ lf pis cs =>
    let nodeDistSq := distSqPoints camPos (centerOf mn mx)
    let nodeSize := maxDim mn mx
    let useNode := sqrtGtB nodeDistSq farThreshold || sizeOverDistBelowB nodeSize nodeDistSq
    if useNode || lf then
      if lf then pis else leafChildIndices cs
    else getLODRecL camPos distance farThreshold nearThreshold cs

def getLODRecL (camPos : Vec3) (distance farThreshold nearThreshold : ℚ) : List Node → List Nat
  | [] => []
  | c :: cs => getLODRec camPos distance farThreshold nearThreshold c ++
      getLODRecL camPos distance farThreshold nearThreshold cs

end

/-- Octree::getLODPoints (SpatialIndex.cpp lines 137-147). -/
def Octree.getLODPoints (t : Octree) (camPos : Vec3)
    (distance farThreshold nearThreshold : ℚ) : List Nat :=
  match t.root with
  | none => []
  | some r => getLODRec camPos distance farThreshold nearThreshold r

/-- Config constants (Utils.hpp lines 63-70). -/
def Config.MinVerticesForThreading : Nat := 10000

def Config.MinMeshesForThreading : Nat := 2

def Config.PointCloudMinPointsForOctree : Nat := 100000

def Config.OctreeMaxDepth : Nat := 12

def Config.OctreePointsPerNode : Nat := 1000

def Config.VertexOptimizationMinVerts : Nat := 10000

/-- Half::floatToHalf (Utils.hpp lines 73-88), ported verbatim on IEEE-754
bit patterns: the input is the 32-bit pattern of the float, the result the
16-bit half pattern. -/
def floatToHalf (f : Nat) : Nat :=
  let bits := f % 2 ^ 32
  let sign := ((bits >>> 31) <<< 15) &&& 0x8000
  let exp := (bits >>> 23) &&& 0xFF
  let mantissa := (bits >>> 13) &&& 0x3FF
  if exp = 0xFF then
    if mantissa = 0 then sign ||| 0x7C00 else sign ||| 0x7E00
  else if exp = 0 then sign
  else
    let exp32 : Int := (exp : Int) - 127 + 15
    if exp32 > 31 then sign ||| 0x7C00
    else if exp32 < 0 then sign
    else sign ||| (exp32.toNat <<< 10) ||| mantissa

/-- A CPU-side Vertex (Model.h lines 12-18) with each float attribute kept
as its 32-bit IEEE-754 bit pattern, so that the half-float packing of the
upload path can be stated bit-exactly. -/
structure VertexBits where
  pos : List Nat
  normal : List Nat
  uv : List Nat
  color : List Nat
  scalar : Nat
deriving DecidableEq, Repr

instance : Inhabited VertexBits := ⟨⟨[], [], [], [], 0⟩⟩

/-- An OptimizedVertex (Utils.hpp lines 91-97): positions and UVs as 16-bit
half patterns, normals, colors and scalar as full 32-bit patterns. -/
structure OptimizedVertexBits where
  pos : List Nat
  normal : List Nat
  uv : List Nat
  color : List Nat
  scalar : Nat
deriving DecidableEq, Repr

/-- The per-vertex packing of Model.cpp lines 252-267: positions and UVs go
through floatToHalf, normals, colors and scalar are copied unchanged. -/
def packOptimized (v : VertexBits) : OptimizedVertexBits :=
  ⟨v.pos.map floatToHalf, v.normal, v.uv.map floatToHalf, v.color, v.scalar⟩

/-- The GPU vertex buffer contents produced by Model::uploadToGPU: either the
optimized half-float layout or the standard full-float layout. -/
inductive VBData : Type where
  | optimized (verts : List OptimizedVertexBits)
  | standard (verts : List VertexBits)
deriving DecidableEq, Repr

/-- The GPU index buffer contents: 16-bit storage (each value the uint16_t
cast of the source index) or 32-bit storage. -/
inductive IBData : Type where
  | sixteen (idxs : List Nat)
  | thirtytwo (idxs : List Nat)
deriving DecidableEq, Repr

/-- A Mesh record (Model.h lines 22-35).  The GPU handles are modelled by a
validity flag (vao.valid()) plus the buffer contents the GL calls would
store. -/
structure MeshData where
  vertices : List VertexBits
  indices : List Nat
  indexCount : Nat
  vertexCount : Nat
  isPointCloud : Bool
  uses16BitIndices : Bool
  usesOptimizedVertices : Bool
  vaoValid : Bool
  vbData : Option VBData
  ibData : Option IBData
deriving DecidableEq, Repr

instance : Inhabited MeshData :=
  ⟨⟨[], [], 0, 0, false, false, false, false, none, none⟩⟩

/-- The per-mesh body of Model::uploadToGPU (Model.cpp lines 222-355).
Meshes whose VAO already exists are skipped (idempotence).  Otherwise:
usesOptimizedVertices is set iff the mesh is not a point cloud and its
vertex count reaches Config::VertexOptimizationMinVerts, choosing the
half-float or full-float vertex layout; for indexed non-point-cloud meshes
uses16BitIndices is first set from vertexCount < 65536, then an explicit
scan over the indices validates that every index fits 16 bits, converting
and storing 16-bit values if so and falling back to 32-bit storage (and
clearing the flag) if not. -/
def uploadMesh (mesh : MeshData) : MeshData :=
  if mesh.vaoValid then mesh
  else
    let usesOpt := !mesh.isPointCloud && decide (mesh.vertexCount ≥ Config.VertexOptimizationMinVerts)
    let vb := if usesOpt then VBData.optimized (mesh.vertices.map packOptimized)
      else VBData.standard mesh.vertices
    let m1 := { mesh with vaoValid := true, usesOptimizedVertices := usesOpt, vbData := some vb }
    if !mesh.isPointCloud && decide (mesh.indexCount > 0) then
      if decide (mesh.vertexCount < 65536) then
        if mesh.indices.all (fun idx => decide (idx < 65536)) then
          { m1 with uses16BitIndices := true,
                    ibData := some (IBData.sixteen (mesh.indices.map (· % 65536))) }
        else
          { m1 with uses16BitIndices := false,
                    ibData := some (IBData.thirtytwo mesh.indices) }
      else
        { m1 with uses16BitIndices := false,
                  ibData := some (IBData.thirtytwo mesh.indices) }
    else m1

/-- The dropCpu epilogue of Model::uploadToGPU (Model.cpp lines 358-363). -/
def MeshData.clearCpu (m : MeshData) : MeshData :=
  { m with vertices := [], indices := [] }

/-- Model::uploadToGPU over the mesh list. -/
def uploadToGPU (dropCpu : Bool) (meshes : List MeshData) : List MeshData :=
  let ms := meshes.map uploadMesh
  if dropCpu then ms.map MeshData.clearCpu else ms

/-- The values stored in a mesh's element buffer, whatever the width. -/
def ibValues : Option IBData → List Nat
  | none => []
  | some (.sixteen l) => l
  | some (.thirtytwo l) => l

/-- An indexed GL_POINTS draw as issued by Model::drawPointsSubset: which
mesh slot's VAO is bound, the element values uploaded into the temporary
element buffer, the element count of the glDrawElements call, and whether
GL_UNSIGNED_SHORT was chosen. -/
structure PointsSubsetDraw where
  meshIndex : Nat
  elements : List Nat
  count : Nat
  sixteenBit : Bool
deriving DecidableEq, Repr

/-- Model::drawPointsSubset (Model.cpp lines 402-456): nothing on an empty
index list; otherwise, when the first mesh exists, is a point cloud and has
a valid VAO, a single glDrawElements(GL_POINTS, indices.size(), ...) against
mMeshes[0]'s VAO, with the temporary element buffer holding the given
indices (cast to uint16_t when the maximum index fits, re-uploaded as
32-bit otherwise).  No bound involving mMeshes[0].vertexCount is ever
checked. -/
def drawPointsSubset (meshes : List MeshData) (indices : List Nat) : Option PointsSubsetDraw :=
  if indices.isEmpty then none
  else if !meshes.isEmpty && (meshes.headD default).isPointCloud
      && (meshes.headD default).vaoValid then
    let maxIdx := indices.foldl max 0
    if decide (maxIdx < 65536) then
      some ⟨0, indices.map (· % 65536), indices.length, true⟩
    else
      some ⟨0, indices, indices.length, false⟩
  else none

/-- Model::isPointCloud (Model.h line 86): nonempty mesh list whose first
mesh is a point cloud. -/
def modelIsPointCloud (meshes : List MeshData) : Bool :=
  !meshes.isEmpty && (meshes.headD default).isPointCloud

/-- The persistent occlusion-culler state (OcclusionCuller.hpp lines 47-49):
the GL query object id (0 = none), the support flag detected at
initialization, and the cached last result (initialized to true). -/
structure OcclusionCuller where
  occlusionQuery : Nat
  occlusionQuerySupported : Bool
  lastOcclusionResult : Bool
deriving DecidableEq, Repr

/-- The GPU-side outcome of one occlusion query poll, an environment input:
whether GL_QUERY_RESULT_AVAILABLE reported ready and the GL_SAMPLES_PASSED
count if so. -/
structure QueryEnv where
  resultAvailable : Bool
  samplesPassed : Nat
deriving DecidableEq, Repr

/-- OcclusionCuller::testOcclusion (OcclusionCuller.cpp lines 99-162),
reduced to its decision logic: unsupported hardware (or a missing query
object) immediately reports visible and leaves the state unchanged; with a
ready result the cached flag is updated to samplesPassed > 0 and returned;
with a pending result the previous cached value is returned.  The returned
pair is (visible, new state). -/
def OcclusionCuller.testOcclusion (occ : OcclusionCuller) (env : QueryEnv) :
    Bool × OcclusionCuller :=
  if !occ.occlusionQuerySupported || decide (occ.occlusionQuery = 0) then (true, occ)
  else if env.resultAvailable then
    let r := decide (env.samplesPassed > 0)
    (r, { occ with lastOcclusionResult := r })
  else (occ.lastOcclusionResult, occ)

/-- How a Scene::draw call terminates: dropped at the frustum gate, dropped
at the occlusion gate, or carried through to the draw dispatch. -/
inductive DrawOutcome : Type where
  | skippedByFrustum
  | skippedByOcclusion
  | drawn
deriving DecidableEq, Repr

/-- The gating prologue of Scene::draw (Scene.cpp lines 17-24): when frustum
culling is enabled, skip if the world-transformed model AABB fails the
frustum test; when occlusion culling is enabled and the model is not a point
cloud, skip if occlusion queries are unsupported or the last cached
occlusion result was not visible; otherwise proceed to the draw dispatch. -/
def sceneDrawGate (enableFrustumCulling enableOcclusionCulling : Bool)
    (meshes : List MeshData) (occ : OcclusionCuller)
    (modelMin modelMax : Vec3) (modelMatrix viewProj : Mat4) : DrawOutcome :=
  if enableFrustumCulling
      && !Frustum.intersectsTransformedAABB (extractPlanes viewProj) modelMin modelMax modelMatrix then
    .skippedByFrustum
  else if enableOcclusionCulling && !modelIsPointCloud meshes
      && (!occ.occlusionQuerySupported || !occ.lastOcclusionResult) then
    .skippedByOcclusion
  else .drawn

/-- FLT_MAX as an exact rational: (2 - 2^-23) * 2^127. -/
def fltMax : ℚ := 2 ^ 128 - 2 ^ 104

/-- The per-mesh scalar range of Model::loadFromFile (Model.cpp lines
102-118): fold min/max over the vertex scalars starting from
FLT_MAX / -FLT_MAX. -/
def meshScalarRange (scalars : List ℚ) : ℚ × ℚ :=
  (scalars.foldl min fltMax, scalars.foldl max (-fltMax))

/-- The scalar-range aggregation of Model::loadFromFile (Model.cpp lines
76-77, 151-152, 184-188): merge every mesh's local range into the global
accumulator (min and max are commutative and associative, so the serialized
merge order of the worker threads does not affect the result), then
normalize a degenerate range (max ≤ min) to [0, 1]. -/
def loadScalarRange (meshScalars : List (List ℚ)) : ℚ × ℚ :=
  let g := meshScalars.foldl
    (fun acc s => (min acc.1 (meshScalarRange s).1, max acc.2 (meshScalarRange s).2))
    (fltMax, -fltMax)
  if g.2 ≤ g.1 then (0, 1) else g

/-! Helper lemmas: list forms of the mutual recursions, partition of a list
by a classifier, and evaluation of buildRecursive through its fuel twin. -/

theorem subnodesL_eq (l : List Node) : subnodesL l = l.flatMap Node.subnodes := by
  induction l with
  | nil => simp [subnodesL]
  | cons c cs ih => simp [subnodesL, ih]

theorem allLeafIndicesL_eq (l : List Node) : allLeafIndicesL l = l.flatMap Node.allLeafIndices := by
  induction l with
  | nil => simp [allLeafIndicesL]
  | cons c cs ih => simp [allLeafIndicesL, ih]

theorem getVisRecL_eq (planes : Frustum) (camPos : Vec3) (maxDistance : ℚ) (l : List Node) :
    getVisRecL planes camPos maxDistance l = l.flatMap (getVisRec planes camPos maxDistance) := by
  induction l with
  | nil => simp [getVisRecL]
  | cons c cs ih => simp [getVisRecL, ih]

theorem getLODRecL_eq (camPos : Vec3) (distance farThreshold nearThreshold : ℚ) (l : List Node) :
    getLODRecL camPos distance farThreshold nearThreshold l
      = l.flatMap (getLODRec camPos distance farThreshold nearThreshold) := by
  induction l with
  | nil => simp [getLODRecL]
  | cons c cs ih => simp [getLODRecL, ih]

theorem leafChildIndices_eq (l : List Node) :
    leafChildIndices l = (l.filter Node.isLeaf).flatMap Node.pointIndices := by
  induction l with
  | nil => simp [leafChildIndices]
  | cons c cs ih =>
    by_cases h : c.isLeaf
    · simp [leafChildIndices, List.filter_cons, h, ih]
    · simp only [Bool.not_eq_true] at h
      simp [leafChildIndices, List.filter_cons, h, ih]

theorem flatMap_filterMap_opt {α β γ : Type} (g : α → Option β) (F : β → List γ) (l : List α) :
    (l.filterMap g).flatMap F = l.flatMap (fun a => ((g a).map F).getD []) := by
  induction l with
  | nil => simp
  | cons a as ih =>
    cases hg : g a with
    | none => simp [List.filterMap_cons, hg, ih]
    | some b => simp [List.filterMap_cons, hg, ih]

theorem flatMap_congr_mem {α β : Type} {F G : α → List β} (l : List α)
    (h : ∀ x ∈ l, F x = G x) : l.flatMap F = l.flatMap G := by
  induction l with
  | nil => simp
  | cons a as ih =>
    simp only [List.flatMap_cons]
    rw [h a (List.mem_cons_self a as), ih (fun x hx => h x (List.mem_cons_of_mem a hx))]

theorem flatMap_perm_mem {α β : Type} {F G : α → List β} (l : List α)
    (h : ∀ x ∈ l, (F x).Perm (G x)) : (l.flatMap F).Perm (l.flatMap G) := by
  induction l with
  | nil => simp
  | cons a as ih =>
    simp only [List.flatMap_cons]
    exact (h a (List.mem_cons_self a as)).append
      (ih (fun x hx => h x (List.mem_cons_of_mem a hx)))

theorem flatMap_filter_beq_cons_perm (f : ℕ → ℕ) (a : ℕ) (rest : List ℕ) :
    ∀ is : List ℕ, is.Nodup → f a ∈ is →
    (is.flatMap fun i => (a :: rest).filter (fun b => f b == i)).Perm
      (a :: is.flatMap fun i => rest.filter (fun b => f b == i)) := by
  intro is
  induction is with
  | nil => intro _ ha; cases ha
  | cons i is ih =>
    intro hnd ha
    by_cases hfa : f a = i
    · have hfilter : (a :: rest).filter (fun b => f b == i)
          = a :: rest.filter (fun b => f b == i) := by
        simp [List.filter_cons, hfa]
      have hnotin : f a ∉ is := by
        intro hmem
        exact (List.nodup_cons.mp hnd).1 (hfa ▸ hmem)
      have hcongr : (is.flatMap fun j => (a :: rest).filter (fun b => f b == j))
          = is.flatMap fun j => rest.filter (fun b => f b == j) := by
        apply flatMap_congr_mem
        intro j hj
        have : f a ≠ j := fun hEq => hnotin (hEq ▸ hj)
        simp [List.filter_cons, this]
      simp only [List.flatMap_cons, hfilter, hcongr]
      exact List.Perm.refl _
    · have hfilter : (a :: rest).filter (fun b => f b == i)
          = rest.filter (fun b => f b == i) := by
        simp [List.filter_cons, hfa]
      have hmem : f a ∈ is := by
        rcases List.mem_cons.mp ha with h | h
        · exact absurd h hfa
        · exact h
      have hperm := ih (List.nodup_cons.mp hnd).2 hmem
      simp only [List.flatMap_cons, hfilter]
      exact (hperm.append_left _).trans List.perm_middle

theorem partition_by_beq_perm (f : ℕ → ℕ) (is : List ℕ) (hnd : is.Nodup) :
    ∀ l : List ℕ, (∀ b ∈ l, f b ∈ is) →
    l.Perm (is.flatMap fun i => l.filter (fun b => f b == i)) := by
  intro l
  induction l with
  | nil => intro _; simp
  | cons a rest ih =>
    intro h
    have ha : f a ∈ is := h a (List.mem_cons_self a rest)
    have hperm := flatMap_filter_beq_cons_perm f a rest is hnd ha
    have hrest := ih (fun b hb => h b (List.mem_cons_of_mem a hb))
    exact ((hrest.cons a).trans hperm.symm)

theorem all_congr_mem {α : Type} {f g : α → Bool} (l : List α)
    (h : ∀ x ∈ l, f x = g x) : l.all f = l.all g := by
  induction l with
  | nil => simp
  | cons a as ih =>
    simp only [List.all_cons]
    rw [h a (List.mem_cons_self a as), ih (fun x hx => h x (List.mem_cons_of_mem a hx))]

theorem getChildIndex_lt_8 (p center : Vec3) : getChildIndex p center < 8 := by
  unfold getChildIndex
  split_ifs <;> omega

theorem buildRecursive_eq_fuel (points : List Vec3) (mpp md : Nat) :
    ∀ (fuel : Nat) (indices : List Nat) (nmin nmax : Vec3) (level : Nat),
    md - level ≤ fuel →
    buildRecursive points indices nmin nmax level mpp md
      = buildFuel points mpp md fuel indices nmin nmax level := by
  intro fuel
  induction fuel with
  | zero =>
    intro indices nmin nmax level hle
    have hmd : md ≤ level := by omega
    rw [buildRecursive, buildFuel]
    simp [hmd]
  | succ fuel ih =>
    intro indices nmin nmax level hle
    by_cases h : indices.length ≤ mpp ∨ md ≤ level
    · rw [buildRecursive, buildFuel]
      simp [h]
    · rw [buildRecursive, buildFuel]
      rw [dif_neg h, if_neg h]
      have hmaps : (List.range 8).filterMap (fun i =>
            if (childFilter points indices (centerOf nmin nmax) i).isEmpty then none
            else some (buildRecursive points (childFilter points indices (centerOf nmin nmax) i)
              (childMin i nmin (centerOf nmin nmax)) (childMax i nmax (centerOf nmin nmax))
              (level + 1) mpp md))
          = (List.range 8).filterMap (fun i =>
            if (childFilter points indices (centerOf nmin nmax) i).isEmpty then none
            else some (buildFuel points mpp md fuel
              (childFilter points indices (centerOf nmin nmax) i)
              (childMin i nmin (centerOf nmin nmax)) (childMax i nmax (centerOf nmin nmax))
              (level + 1))) := by
        apply List.filterMap_congr
        intro i _
        by_cases hci : (childFilter points indices (centerOf nmin nmax) i).isEmpty
        · simp [hci]
        · simp only [hci, Bool.false_eq_true, if_false]
          rw [ih _ _ _ _ (by omega)]
      rw [hmaps]

/-! Geometry lemmas for the frustum test. -/

theorem positiveVertex_mem_box (p : Plane) (mn mx : Vec3) (hbox : Vec3.le mn mx) :
    inAABB mn mx (positiveVertex p mn mx) := by
  obtain ⟨h1, h2, h3⟩ := hbox
  unfold inAABB Vec3.le positiveVertex
  split_ifs <;> simp_all

theorem negativeVertex_mem_box (p : Plane) (mn mx : Vec3) (hbox : Vec3.le mn mx) :
    inAABB mn mx (negativeVertex p mn mx) := by
  obtain ⟨h1, h2, h3⟩ := hbox
  unfold inAABB Vec3.le negativeVertex
  split_ifs <;> simp_all

theorem dist_le_dist_positiveVertex (p : Plane) (mn mx v : Vec3)
    (hv : inAABB mn mx v) : p.dist v ≤ p.dist (positiveVertex p mn mx) := by
  obtain ⟨⟨h1, h2, h3⟩, ⟨h4, h5, h6⟩⟩ := hv
  unfold Plane.dist positiveVertex
  have hx : p.a * v.x ≤ p.a * (if p.a > 0 then mx.x else mn.x) := by
    split_ifs with h
    · exact mul_le_mul_of_nonneg_left h4 (le_of_lt h)
    · push_neg at h
      exact mul_le_mul_of_nonpos_left h1 h
  have hy : p.b * v.y ≤ p.b * (if p.b > 0 then mx.y else mn.y) := by
    split_ifs with h
    · exact mul_le_mul_of_nonneg_left h5 (le_of_lt h)
    · push_neg at h
      exact mul_le_mul_of_nonpos_left h2 h
  have hz : p.c * v.z ≤ p.c * (if p.c > 0 then mx.z else mn.z) := by
    split_ifs with h
    · exact mul_le_mul_of_nonneg_left h6 (le_of_lt h)
    · push_neg at h
      exact mul_le_mul_of_nonpos_left h3 h
  simp only
  linarith

theorem dist_negativeVertex_le_dist (p : Plane) (mn mx v : Vec3)
    (hv : inAABB mn mx v) : p.dist (negativeVertex p mn mx) ≤ p.dist v := by
  obtain ⟨⟨h1, h2, h3⟩, ⟨h4, h5, h6⟩⟩ := hv
  unfold Plane.dist negativeVertex
  have hx : p.a * (if p.a > 0 then mn.x else mx.x) ≤ p.a * v.x := by
    split_ifs with h
    · exact mul_le_mul_of_nonneg_left h1 (le_of_lt h)
    · push_neg at h
      exact mul_le_mul_of_nonpos_left h4 h
  have hy : p.b * (if p.b > 0 then mn.y else mx.y) ≤ p.b * v.y := by
    split_ifs with h
    · exact mul_le_mul_of_nonneg_left h2 (le_of_lt h)
    · push_neg at h
      exact mul_le_mul_of_nonpos_left h5 h
  have hz : p.c * (if p.c > 0 then mn.z else mx.z) ≤ p.c * v.z := by
    split_ifs with h
    · exact mul_le_mul_of_nonneg_left h3 (le_of_lt h)
    · push_neg at h
      exact mul_le_mul_of_nonpos_left h6 h
  simp only
  linarith

/-- Positive rescaling of every plane (the normalization step the source
performs with the reciprocal normal length) changes no intersectsAABB
verdict: the positive-vertex selection depends only on the signs of the
normal components and the signed-distance sign test is scale-invariant. -/
theorem intersectsAABB_scale_invariant (planes : List Plane) (k : Plane → ℚ)
    (hk : ∀ p ∈ planes, 0 < k p) (mn mx : Vec3) :
    Frustum.intersectsAABB (planes.map (fun p => ⟨k p * p.a, k p * p.b, k p * p.c, k p * p.d⟩))
      mn mx = Frustum.intersectsAABB planes mn mx := by
  unfold Frustum.intersectsAABB
  rw [List.all_map]
  apply all_congr_mem
  intro p hp
  have hkp := hk p hp
  simp only [Function.comp_apply]
  have hsel : positiveVertex ⟨k p * p.a, k p * p.b, k p * p.c, k p * p.d⟩ mn mx
      = positiveVertex p mn mx := by
    unfold positiveVertex
    have ha : (k p * p.a > 0) ↔ (p.a > 0) := by
      constructor
      · intro h; nlinarith
      · intro h; exact mul_pos hkp h
    have hb : (k p * p.b > 0) ↔ (p.b > 0) := by
      constructor
      · intro h; nlinarith
      · intro h; exact mul_pos hkp h
    have hc : (k p * p.c > 0) ↔ (p.c > 0) := by
      constructor
      · intro h; nlinarith
      · intro h; exact mul_pos hkp h
    simp only [ha, hb, hc]
  rw [hsel]
  have hdist : Plane.dist ⟨k p * p.a, k p * p.b, k p * p.c, k p * p.d⟩ (positiveVertex p mn mx)
      = k p * p.dist (positiveVertex p mn mx) := by
    unfold Plane.dist
    ring
  rw [hdist]
  have : (k p * p.dist (positiveVertex p mn mx) < 0) ↔ (p.dist (positiveVertex p mn mx) < 0) := by
    constructor
    · intro h; nlinarith
    · intro h
      have := mul_pos hkp (neg_pos.mpr h)
      nlinarith
  simp [this]

/-- C7: Frustum::intersectsAABB returns false exactly when some plane sees
the box's most-positive corner (per axis the max coordinate iff the normal
component is positive) at negative signed distance; consequently a box
lying entirely outside one plane's half-space is rejected and a box inside
all half-spaces is accepted. -/
theorem frustum_intersectsAABB_characterization (planes : List Plane) (mn mx : Vec3)
    (hbox : Vec3.le mn mx) :
    (Frustum.intersectsAABB planes mn mx = false ↔
      ∃ p ∈ planes, p.dist (positiveVertex p mn mx) < 0)
    ∧ (∀ p ∈ planes, (∀ v, inAABB mn mx v → p.dist v < 0) →
        Frustum.intersectsAABB planes mn mx = false)
    ∧ ((∀ p ∈ planes, ∀ v, inAABB mn mx v → 0 ≤ p.dist v) →
        Frustum.intersectsAABB planes mn mx = true) := by
  have hchar : Frustum.intersectsAABB planes mn mx = false ↔
      ∃ p ∈ planes, p.dist (positiveVertex p mn mx) < 0 := by
    unfold Frustum.intersectsAABB
    rw [List.all_eq_false]
    constructor
    · rintro ⟨p, hp, hfail⟩
      refine ⟨p, hp, ?_⟩
      by_contra hge
      simp [hge] at hfail
    · rintro ⟨p, hp, hlt⟩
      exact ⟨p, hp, by simp [hlt]⟩
  refine ⟨hchar, ?_, ?_⟩
  · intro p hp hout
    exact hchar.mpr ⟨p, hp, hout _ (positiveVertex_mem_box p mn mx hbox)⟩
  · intro hin
    unfold Frustum.intersectsAABB
    rw [List.all_eq_true]
    intro p hp
    have := hin p hp _ (positiveVertex_mem_box p mn mx hbox)
    simp [not_lt.mpr this]

/-! Octree build invariants. -/

theorem buildNode_allLeaf (nmin nmax : Vec3) (level : Nat) (indices : List Nat)
    (cs : List Node) :
    (buildNode nmin nmax level indices cs).allLeafIndices
      = if cs.isEmpty then indices else cs.flatMap Node.allLeafIndices := by
  unfold buildNode
  split_ifs with h <;> simp [Node.allLeafIndices, allLeafIndicesL_eq]

theorem buildNode_subnodes (nmin nmax : Vec3) (level : Nat) (indices : List Nat)
    (cs : List Node) :
    (buildNode nmin nmax level indices cs).subnodes
      = if cs.isEmpty then [Node.mk nmin nmax level true indices []]
        else Node.mk nmin nmax level false [] cs :: cs.flatMap Node.subnodes := by
  unfold buildNode
  split_ifs with h <;> simp [Node.subnodes, subnodesL_eq, subnodesL]

theorem childFilter_mem_self (points : List Vec3) (indices : List Nat) (center : Vec3)
    (idx : Nat) (hidx : idx ∈ indices) :
    idx ∈ childFilter points indices center (getChildIndex (points.getD idx default) center) := by
  unfold childFilter
  rw [List.mem_filter]
  exact ⟨hidx, by simp⟩

theorem buildRecursive_allLeaf_perm (points : List Vec3) (mpp md : Nat) :
    ∀ (g : Nat) (indices : List Nat) (nmin nmax : Vec3) (level : Nat),
    md - level ≤ g →
    ((buildRecursive points indices nmin nmax level mpp md).allLeafIndices).Perm indices := by
  intro g
  induction g with
  | zero =>
    intro indices nmin nmax level hle
    rw [buildRecursive, dif_pos (Or.inr (by omega))]
    simp [Node.allLeafIndices]
  | succ g ih =>
    intro indices nmin nmax level hle
    by_cases h : indices.length ≤ mpp ∨ md ≤ level
    · rw [buildRecursive, dif_pos h]
      simp [Node.allLeafIndices]
    · rw [buildRecursive, dif_neg h, buildNode_allLeaf]
      split_ifs with hcs
      · exact List.Perm.refl _
      · rw [flatMap_filterMap_opt]
        have hpart := partition_by_beq_perm
          (fun idx => getChildIndex (points.getD idx default) (centerOf nmin nmax))
          (List.range 8) (List.nodup_range 8) indices
          (fun b _ => List.mem_range.mpr (getChildIndex_lt_8 _ _))
        have hpoint : ∀ i ∈ List.range 8,
            ((((if (childFilter points indices (centerOf nmin nmax) i).isEmpty then none
              else some (buildRecursive points (childFilter points indices (centerOf nmin nmax) i)
                (childMin i nmin (centerOf nmin nmax)) (childMax i nmax (centerOf nmin nmax))
                (level + 1) mpp md))).map Node.allLeafIndices).getD []).Perm
              (childFilter points indices (centerOf nmin nmax) i) := by
          intro i _
          by_cases hci : (childFilter points indices (centerOf nmin nmax) i).isEmpty
          · rw [if_pos hci]
            simp [List.isEmpty_iff.mp hci]
          · rw [if_neg hci]
            simpa using ih (childFilter points indices (centerOf nmin nmax) i)
              (childMin i nmin (centerOf nmin nmax)) (childMax i nmax (centerOf nmin nmax))
              (level + 1) (by omega)
        refine (flatMap_perm_mem (List.range 8) hpoint).trans ?_
        exact hpart.symm

theorem build_subnodes_props (points : List Vec3) (mpp md : Nat) :
    ∀ (g : Nat) (indices : List Nat) (nmin nmax : Vec3) (level : Nat),
    md - level ≤ g → level ≤ md →
    ∀ nd ∈ (buildRecursive points indices nmin nmax level mpp md).subnodes,
      (nd.isLeaf = false → nd.pointIndices = [])
      ∧ nd.level ≤ md
      ∧ (nd.isLeaf = true → nd.pointIndices.length ≤ mpp ∨ nd.level = md) := by
  intro g
  induction g with
  | zero =>
    intro indices nmin nmax level hle hlev nd hnd
    rw [buildRecursive, dif_pos (Or.inr (by omega))] at hnd
    simp [Node.subnodes, subnodesL] at hnd
    subst hnd
    refine ⟨by simp [Node.isLeaf], by simpa [Node.level] using hlev, ?_⟩
    intro _
    right
    simp [Node.level]
    omega
  | succ g ih =>
    intro indices nmin nmax level hle hlev nd hnd
    by_cases h : indices.length ≤ mpp ∨ md ≤ level
    · rw [buildRecursive, dif_pos h] at hnd
      simp [Node.subnodes, subnodesL] at hnd
      subst hnd
      refine ⟨by simp [Node.isLeaf], by simpa [Node.level] using hlev, ?_⟩
      intro _
      rcases h with h | h
      · exact Or.inl (by simpa [Node.pointIndices] using h)
      · exact Or.inr (by simp [Node.level]; omega)
    · rw [buildRecursive, dif_neg h, buildNode_subnodes] at hnd
      have hne : ¬((List.range 8).filterMap (fun i =>
          if (childFilter points indices (centerOf nmin nmax) i).isEmpty then none
          else some (buildRecursive points (childFilter points indices (centerOf nmin nmax) i)
            (childMin i nmin (centerOf nmin nmax)) (childMax i nmax (centerOf nmin nmax))
            (level + 1) mpp md))).isEmpty := by
        have hlen : 0 < indices.length := by omega
        obtain ⟨idx, hidx⟩ := List.exists_mem_of_length_pos hlen
        have hmem := childFilter_mem_self points indices (centerOf nmin nmax) idx hidx
        have hci : ¬(childFilter points indices (centerOf nmin nmax)
            (getChildIndex (points.getD idx default) (centerOf nmin nmax))).isEmpty := by
          intro hemp
          rw [List.isEmpty_iff.mp hemp] at hmem
          cases hmem
        intro hemp
        rw [List.isEmpty_iff] at hemp
        have : (buildRecursive points (childFilter points indices (centerOf nmin nmax)
            (getChildIndex (points.getD idx default) (centerOf nmin nmax)))
            (childMin (getChildIndex (points.getD idx default) (centerOf nmin nmax)) nmin (centerOf nmin nmax))
            (childMax (getChildIndex (points.getD idx default) (centerOf nmin nmax)) nmax (centerOf nmin nmax))
            (level + 1) mpp md) ∈ (List.range 8).filterMap (fun i =>
          if (childFilter points indices (centerOf nmin nmax) i).isEmpty then none
          else some (buildRecursive points (childFilter points indices (centerOf nmin nmax) i)
            (childMin i nmin (centerOf nmin nmax)) (childMax i nmax (centerOf nmin nmax))
            (level + 1) mpp md)) := by
          rw [List.mem_filterMap]
          refine ⟨getChildIndex (points.getD idx default) (centerOf nmin nmax),
            List.mem_range.mpr (getChildIndex_lt_8 _ _), ?_⟩
          rw [if_neg hci]
        rw [hemp] at this
        cases this
      rw [if_neg hne] at hnd
      rcases List.mem_cons.mp hnd with hself | hchild
      · subst hself
        exact ⟨fun _ => by simp [Node.pointIndices],
          by simpa [Node.level] using hlev,
          fun habs => by simp [Node.isLeaf] at habs⟩
      · rw [List.mem_flatMap] at hchild
        obtain ⟨c, hc, hndc⟩ := hchild
        rw [List.mem_filterMap] at hc
        obtain ⟨i, _, hgi⟩ := hc
        by_cases hci : (childFilter points indices (centerOf nmin nmax) i).isEmpty
        · rw [if_pos hci] at hgi
          cases hgi
        · rw [if_neg hci] at hgi
          have hc' := Option.some.inj hgi
          subst hc'
          exact ih (childFilter points indices (centerOf nmin nmax) i)
            (childMin i nmin (centerOf nmin nmax)) (childMax i nmax (centerOf nmin nmax))
            (level + 1) (by omega) (by omega) nd hndc

theorem octreeBuild_rootD_eq_fuel (points : List Vec3) (mn mx : Vec3) (mpp md : Nat) :
    (Octree.build points mn mx mpp md).rootD
      = buildFuel points mpp md md (List.range points.length) mn mx 0 := by
  show (buildRecursive points (List.range points.length) mn mx 0 mpp md) = _
  exact buildRecursive_eq_fuel points mpp md md _ mn mx 0 (by omega)

/-- C1: in every built octree the leaf point-index lists partition the input
index set 0..n-1 — their depth-first concatenation is a permutation of
[0, n), so each index appears in exactly one leaf exactly once — and no
internal node carries a point list of its own. -/
theorem octree_build_leaf_partition (points : List Vec3) (mn mx : Vec3) (mpp md : Nat) :
    ((Octree.build points mn mx mpp md).rootD.allLeafIndices).Perm
      (List.range points.length)
    ∧ ∀ nd ∈ (Octree.build points mn mx mpp md).rootD.subnodes,
        nd.isLeaf = false → nd.pointIndices = [] := by
  constructor
  · exact buildRecursive_allLeaf_perm points mpp md md (List.range points.length) mn mx 0
      (by omega)
  · intro nd hnd
    exact (build_subnodes_props points mpp md md (List.range points.length) mn mx 0
      (by omega) (by omega) nd hnd).1

/-- Witness for C1 at a concrete two-point cloud: the claim theorem applied
to that input. -/
theorem octree_build_leaf_partition_witness :
    (((Octree.build [⟨1/4, 1/4, 1/4⟩, ⟨3/4, 3/4, 3/4⟩] ⟨0, 0, 0⟩ ⟨1, 1, 1⟩ 1 8).rootD.allLeafIndices).Perm
      (List.range 2))
    ∧ ∀ nd ∈ (Octree.build [⟨1/4, 1/4, 1/4⟩, ⟨3/4, 3/4, 3/4⟩] ⟨0, 0, 0⟩ ⟨1, 1, 1⟩ 1 8).rootD.subnodes,
        nd.isLeaf = false → nd.pointIndices = [] := by
  simpa using octree_build_leaf_partition [⟨1/4, 1/4, 1/4⟩, ⟨3/4, 3/4, 3/4⟩] ⟨0, 0, 0⟩ ⟨1, 1, 1⟩ 1 8

/-- C6: every leaf of a built octree respects the point budget or sits at
the depth limit (never violating both), and no node of the tree exceeds the
depth limit. -/
theorem octree_leaf_bounds (points : List Vec3) (mn mx : Vec3) (mpp md : Nat) :
    ∀ nd ∈ (Octree.build points mn mx mpp md).rootD.subnodes,
      (nd.isLeaf = true → nd.pointIndices.length ≤ mpp ∨ nd.level = md)
      ∧ nd.level ≤ md := by
  intro nd hnd
  have h := build_subnodes_props points mpp md md (List.range points.length) mn mx 0
    (by omega) (by omega) nd hnd
  exact ⟨h.2.2, h.2.1⟩

/-- Witness for C6: the root leaf of a one-point octree satisfies both
bounds. -/
theorem octree_leaf_bounds_witness :
    ((Node.mk ⟨0, 0, 0⟩ ⟨1, 1, 1⟩ 0 true [0] []).isLeaf = true →
      (Node.mk ⟨0, 0, 0⟩ ⟨1, 1, 1⟩ 0 true [0] []).pointIndices.length ≤ 1
        ∨ (Node.mk ⟨0, 0, 0⟩ ⟨1, 1, 1⟩ 0 true [0] []).level = 8)
    ∧ (Node.mk ⟨0, 0, 0⟩ ⟨1, 1, 1⟩ 0 true [0] []).level ≤ 8 := by
  refine octree_leaf_bounds [⟨0, 0, 0⟩] ⟨0, 0, 0⟩ ⟨1, 1, 1⟩ 1 8 _ ?_
  rw [octreeBuild_rootD_eq_fuel]
  show Node.mk ⟨0, 0, 0⟩ ⟨1, 1, 1⟩ 0 true [0] []
      ∈ [Node.mk ⟨0, 0, 0⟩ ⟨1, 1, 1⟩ 0 true [0] []]
  exact List.mem_singleton.mpr rfl

/-! Visible-point query: a frustum containing the whole root box accepts
every node of the tree, so the traversal degenerates to the leaf-index
concatenation. -/

theorem Vec3.le_trans {a b c : Vec3} (h1 : Vec3.le a b) (h2 : Vec3.le b c) : Vec3.le a c := by
  unfold Vec3.le at *
  obtain ⟨x1, y1, z1⟩ := h1
  obtain ⟨x2, y2, z2⟩ := h2
  exact ⟨x1.trans x2, y1.trans y2, z1.trans z2⟩

theorem childBox_within (i : Nat) (nmin nmax : Vec3) (h : Vec3.le nmin nmax) :
    Vec3.le nmin (childMin i nmin (centerOf nmin nmax))
    ∧ Vec3.le (childMax i nmax (centerOf nmin nmax)) nmax
    ∧ Vec3.le (childMin i nmin (centerOf nmin nmax)) (childMax i nmax (centerOf nmin nmax)) := by
  obtain ⟨h1, h2, h3⟩ := h
  unfold Vec3.le childMin childMax centerOf
  refine ⟨⟨?_, ?_, ?_⟩, ⟨?_, ?_, ?_⟩, ⟨?_, ?_, ?_⟩⟩ <;> split_ifs <;> simp <;> linarith

theorem inAABB_mono {rmin rmax nmin nmax v : Vec3} (hs1 : Vec3.le rmin nmin)
    (hs2 : Vec3.le nmax rmax) (hv : inAABB nmin nmax v) : inAABB rmin rmax v :=
  ⟨Vec3.le_trans hs1 hv.1, Vec3.le_trans hv.2 hs2⟩

theorem intersects_of_contained (planes : List Plane) (rmin rmax nmin nmax : Vec3)
    (hs1 : Vec3.le rmin nmin) (hs2 : Vec3.le nmax rmax) (hbox : Vec3.le nmin nmax)
    (henc : ∀ p ∈ planes, ∀ v, inAABB rmin rmax v → 0 ≤ p.dist v) :
    Frustum.intersectsAABB planes nmin nmax = true := by
  unfold Frustum.intersectsAABB
  rw [List.all_eq_true]
  intro p hp
  have hmem : inAABB rmin rmax (positiveVertex p nmin nmax) :=
    inAABB_mono hs1 hs2 (positiveVertex_mem_box p nmin nmax hbox)
  have := henc p hp _ hmem
  simp [not_lt.mpr this]

theorem getVis_eq_allLeaf (points : List Vec3) (mpp md : Nat) (planes : List Plane)
    (camPos : Vec3) (maxDistance : ℚ) (rmin rmax : Vec3)
    (henc : ∀ p ∈ planes, ∀ v, inAABB rmin rmax v → 0 ≤ p.dist v) :
    ∀ (g : Nat) (indices : List Nat) (nmin nmax : Vec3) (level : Nat),
    md - level ≤ g →
    Vec3.le rmin nmin → Vec3.le nmax rmax → Vec3.le nmin nmax →
    (∀ nd ∈ (buildRecursive points indices nmin nmax level mpp md).subnodes,
      sqrtGtB (distSqToAABB camPos nd.nmin nd.nmax) maxDistance = false) →
    getVisRec planes camPos maxDistance (buildRecursive points indices nmin nmax level mpp md)
      = (buildRecursive points indices nmin nmax level mpp md).allLeafIndices := by
  intro g
  induction g with
  | zero =>
    intro indices nmin nmax level hle hs1 hs2 hbox hdist
    rw [buildRecursive, dif_pos (Or.inr (by omega))] at hdist ⊢
    have hself := hdist (Node.mk nmin nmax level true indices [])
      (by simp [Node.subnodes, subnodesL])
    simp only [Node.nmin, Node.nmax] at hself
    have hacc := intersects_of_contained planes rmin rmax nmin nmax hs1 hs2 hbox henc
    simp [getVisRec, hself, hacc, Node.allLeafIndices]
  | succ g ih =>
    intro indices nmin nmax level hle hs1 hs2 hbox hdist
    by_cases h : indices.length ≤ mpp ∨ md ≤ level
    · rw [buildRecursive, dif_pos h] at hdist ⊢
      have hself := hdist (Node.mk nmin nmax level true indices [])
        (by simp [Node.subnodes, subnodesL])
      simp only [Node.nmin, Node.nmax] at hself
      have hacc := intersects_of_contained planes rmin rmax nmin nmax hs1 hs2 hbox henc
      simp [getVisRec, hself, hacc, Node.allLeafIndices]
    · rw [buildRecursive, dif_neg h] at hdist ⊢
      by_cases hcs : ((List.range 8).filterMap (fun i =>
          if (childFilter points indices (centerOf nmin nmax) i).isEmpty then none
          else some (buildRecursive points (childFilter points indices (centerOf nmin nmax) i)
            (childMin i nmin (centerOf nmin nmax)) (childMax i nmax (centerOf nmin nmax))
            (level + 1) mpp md))).isEmpty
      · unfold buildNode at hdist ⊢
        rw [if_pos hcs] at hdist ⊢
        have hself := hdist (Node.mk nmin nmax level true indices [])
          (by simp [Node.subnodes, subnodesL])
        simp only [Node.nmin, Node.nmax] at hself
        have hacc := intersects_of_contained planes rmin rmax nmin nmax hs1 hs2 hbox henc
        simp [getVisRec, hself, hacc, Node.allLeafIndices]
      · unfold buildNode at hdist ⊢
        rw [if_neg hcs] at hdist ⊢
        have hself := hdist (Node.mk nmin nmax level false []
            ((List.range 8).filterMap (fun i =>
              if (childFilter points indices (centerOf nmin nmax) i).isEmpty then none
              else some (buildRecursive points (childFilter points indices (centerOf nmin nmax) i)
                (childMin i nmin (centerOf nmin nmax)) (childMax i nmax (centerOf nmin nmax))
                (level + 1) mpp md))))
          (by simp [Node.subnodes])
        simp only [Node.nmin, Node.nmax] at hself
        have hacc := intersects_of_contained planes rmin rmax nmin nmax hs1 hs2 hbox henc
        simp only [getVisRec, Node.allLeafIndices, hself, hacc, Bool.not_true,
          Bool.false_eq_true, if_false, ite_false, ite_true, Bool.true_eq_false]
        rw [getVisRecL_eq, allLeafIndicesL_eq]
        apply flatMap_congr_mem
        intro c hc
        rw [List.mem_filterMap] at hc
        obtain ⟨i, _, hgi⟩ := hc
        by_cases hci : (childFilter points indices (centerOf nmin nmax) i).isEmpty
        · rw [if_pos hci] at hgi
          cases hgi
        · rw [if_neg hci] at hgi
          have hc' := Option.some.inj hgi
          subst hc'
          obtain ⟨hw1, hw2, hw3⟩ := childBox_within i nmin nmax hbox
          refine ih (childFilter points indices (centerOf nmin nmax) i)
            (childMin i nmin (centerOf nmin nmax)) (childMax i nmax (centerOf nmin nmax))
            (level + 1) (by omega) (Vec3.le_trans hs1 hw1) (Vec3.le_trans hw2 hs2) hw3 ?_
          intro nd hnd
          apply hdist nd
          simp only [Node.subnodes, subnodesL_eq]
          refine List.mem_cons_of_mem _ ?_
          rw [List.mem_flatMap]
          refine ⟨_, ?_, hnd⟩
          rw [List.mem_filterMap]
          refine ⟨i, by simp_all, ?_⟩
          rw [if_neg hci]

/-- C2: on a built octree, getVisiblePoints with a view-projection matrix
whose extracted frustum encompasses the root bounding box (every box point
lies inside all extracted half-spaces, hence every node box — all contained
in the root box — passes the frustum test) and a maxDistance bound that no
node's camera distance exceeds returns every input point index exactly
once. -/
theorem octree_getVisiblePoints_complete (points : List Vec3) (mn mx : Vec3)
    (mpp md : Nat) (viewProj : Mat4) (camPos : Vec3) (maxDistance : ℚ)
    (hbox : Vec3.le mn mx)
    (henc : ∀ p ∈ extractPlanes viewProj, ∀ v, inAABB mn mx v → 0 ≤ p.dist v)
    (hdist : ∀ nd ∈ (Octree.build points mn mx mpp md).rootD.subnodes,
      sqrtGtB (distSqToAABB camPos nd.nmin nd.nmax) maxDistance = false) :
    ((Octree.build points mn mx mpp md).getVisiblePoints viewProj camPos maxDistance).Perm
      (List.range points.length) := by
  have heq := getVis_eq_allLeaf points mpp md (extractPlanes viewProj) camPos maxDistance
    mn mx henc md (List.range points.length) mn mx 0 (by omega)
    ⟨le_refl _, le_refl _, le_refl _⟩ ⟨le_refl _, le_refl _, le_refl _⟩ hbox hdist
  have hperm := buildRecursive_allLeaf_perm points mpp md md (List.range points.length)
    mn mx 0 (by omega)
  show getVisRec (extractPlanes viewProj) camPos maxDistance
    (buildRecursive points (List.range points.length) mn mx 0 mpp md) |>.Perm _
  rw [heq]
  exact hperm

/-- Witness for C2: a two-point cloud in the unit box, a matrix whose
extracted planes are all 0x + 0y + 0z + 1 (accepting all space), the camera
at the box center and squared distances at most 10². -/
theorem octree_getVisiblePoints_complete_witness :
    ((Octree.build [⟨1/4, 1/4, 1/4⟩, ⟨3/4, 3/4, 3/4⟩] ⟨0, 0, 0⟩ ⟨1, 1, 1⟩ 1 8).getVisiblePoints
      (fun c r => if c = 3 ∧ r = 3 then (1 : ℚ) else 0) ⟨1/2, 1/2, 1/2⟩ 10).Perm
      (List.range 2) := by
  refine octree_getVisiblePoints_complete [⟨1/4, 1/4, 1/4⟩, ⟨3/4, 3/4, 3/4⟩]
    ⟨0, 0, 0⟩ ⟨1, 1, 1⟩ 1 8 (fun c r => if c = 3 ∧ r = 3 then (1 : ℚ) else 0)
    ⟨1/2, 1/2, 1/2⟩ 10 (by decide) ?_ ?_
  · intro p hp v hv
    simp only [extractPlanes, List.mem_cons, List.not_mem_nil, or_false] at hp
    rcases hp with rfl | rfl | rfl | rfl | rfl | rfl <;>
      simp [Plane.dist]
  · rw [octreeBuild_rootD_eq_fuel]
    with_unfolding_all decide

/-- Witness for C7: the six face planes of the unit box applied to the unit
box itself. -/
theorem frustum_intersectsAABB_characterization_witness :
    (Frustum.intersectsAABB
        [⟨1, 0, 0, 0⟩, ⟨-1, 0, 0, 1⟩, ⟨0, 1, 0, 0⟩, ⟨0, -1, 0, 1⟩, ⟨0, 0, 1, 0⟩, ⟨0, 0, -1, 1⟩]
        ⟨0, 0, 0⟩ ⟨1, 1, 1⟩ = false ↔
      ∃ p ∈ ([⟨1, 0, 0, 0⟩, ⟨-1, 0, 0, 1⟩, ⟨0, 1, 0, 0⟩, ⟨0, -1, 0, 1⟩, ⟨0, 0, 1, 0⟩,
          ⟨0, 0, -1, 1⟩] : List Plane),
        p.dist (positiveVertex p ⟨0, 0, 0⟩ ⟨1, 1, 1⟩) < 0)
    ∧ (∀ p ∈ ([⟨1, 0, 0, 0⟩, ⟨-1, 0, 0, 1⟩, ⟨0, 1, 0, 0⟩, ⟨0, -1, 0, 1⟩, ⟨0, 0, 1, 0⟩,
          ⟨0, 0, -1, 1⟩] : List Plane),
        (∀ v, inAABB ⟨0, 0, 0⟩ ⟨1, 1, 1⟩ v → p.dist v < 0) →
        Frustum.intersectsAABB
          [⟨1, 0, 0, 0⟩, ⟨-1, 0, 0, 1⟩, ⟨0, 1, 0, 0⟩, ⟨0, -1, 0, 1⟩, ⟨0, 0, 1, 0⟩, ⟨0, 0, -1, 1⟩]
          ⟨0, 0, 0⟩ ⟨1, 1, 1⟩ = false)
    ∧ ((∀ p ∈ ([⟨1, 0, 0, 0⟩, ⟨-1, 0, 0, 1⟩, ⟨0, 1, 0, 0⟩, ⟨0, -1, 0, 1⟩, ⟨0, 0, 1, 0⟩,
          ⟨0, 0, -1, 1⟩] : List Plane),
        ∀ v, inAABB ⟨0, 0, 0⟩ ⟨1, 1, 1⟩ v → 0 ≤ p.dist v) →
        Frustum.intersectsAABB
          [⟨1, 0, 0, 0⟩, ⟨-1, 0, 0, 1⟩, ⟨0, 1, 0, 0⟩, ⟨0, -1, 0, 1⟩, ⟨0, 0, 1, 0⟩, ⟨0, 0, -1, 1⟩]
          ⟨0, 0, 0⟩ ⟨1, 1, 1⟩ = true) :=
  frustum_intersectsAABB_characterization
    [⟨1, 0, 0, 0⟩, ⟨-1, 0, 0, 1⟩, ⟨0, 1, 0, 0⟩, ⟨0, -1, 0, 1⟩, ⟨0, 0, 1, 0⟩, ⟨0, 0, -1, 1⟩]
    ⟨0, 0, 0⟩ ⟨1, 1, 1⟩ (by decide)

/-! The LOD query: branching behaviour of getLODPointsRecursive. -/

/-- C8 amended: in getLODPoints, a leaf is always used directly (its point
list is emitted no matter how close or large it is); an internal node is
used directly exactly when its center is farther from the camera than
farThreshold or when its largest box dimension (maxDim, not the box
diagonal) over that distance falls below 0.01, in which case only the point
lists of its leaf children are emitted; otherwise the traversal recurses
into all children. -/
theorem octree_getLOD_branching (points : List Vec3) (mn mx : Vec3) (mpp md : Nat)
    (camPos : Vec3) (distance farThreshold nearThreshold : ℚ) :
    ∀ nd ∈ (Octree.build points mn mx mpp md).rootD.subnodes,
      (nd.isLeaf = true →
        getLODRec camPos distance farThreshold nearThreshold nd = nd.pointIndices)
      ∧ (nd.isLeaf = false →
          (sqrtGtB (distSqPoints camPos (centerOf nd.nmin nd.nmax)) farThreshold
            || sizeOverDistBelowB (maxDim nd.nmin nd.nmax)
                (distSqPoints camPos (centerOf nd.nmin nd.nmax))) = true →
          getLODRec camPos distance farThreshold nearThreshold nd
            = (nd.children.filter Node.isLeaf).flatMap Node.pointIndices)
      ∧ (nd.isLeaf = false →
          (sqrtGtB (distSqPoints camPos (centerOf nd.nmin nd.nmax)) farThreshold
            || sizeOverDistBelowB (maxDim nd.nmin nd.nmax)
                (distSqPoints camPos (centerOf nd.nmin nd.nmax))) = false →
          getLODRec camPos distance farThreshold nearThreshold nd
            = nd.children.flatMap (getLODRec camPos distance farThreshold nearThreshold)) := by
  intro nd _
  obtain ⟨nmin, nmax, lv, lf, pis, cs⟩ := nd
  refine ⟨?_, ?_, ?_⟩
  · intro hlf
    simp only [Node.isLeaf] at hlf
    subst hlf
    simp [getLODRec, Node.pointIndices]
  · intro hlf hcond
    simp only [Node.isLeaf] at hlf
    subst hlf
    simp only [Node.nmin, Node.nmax, Node.children] at hcond ⊢
    simp [getLODRec, hcond, leafChildIndices_eq]
  · intro hlf hcond
    simp only [Node.isLeaf] at hlf
    subst hlf
    simp only [Node.nmin, Node.nmax, Node.children] at hcond ⊢
    simp [getLODRec, hcond, getLODRecL_eq]

/-- Witness for C8 amended: the root leaf of a one-point octree emits its
point list. -/
theorem octree_getLOD_branching_witness :
    ((Node.mk ⟨0, 0, 0⟩ ⟨1, 1, 1⟩ 0 true [0] []).isLeaf = true →
      getLODRec ⟨5, 5, 5⟩ 0 100 10 (Node.mk ⟨0, 0, 0⟩ ⟨1, 1, 1⟩ 0 true [0] [])
        = (Node.mk ⟨0, 0, 0⟩ ⟨1, 1, 1⟩ 0 true [0] []).pointIndices)
    ∧ ((Node.mk ⟨0, 0, 0⟩ ⟨1, 1, 1⟩ 0 true [0] []).isLeaf = false →
        (sqrtGtB (distSqPoints ⟨5, 5, 5⟩ (centerOf (Node.mk ⟨0, 0, 0⟩ ⟨1, 1, 1⟩ 0 true [0] []).nmin
            (Node.mk ⟨0, 0, 0⟩ ⟨1, 1, 1⟩ 0 true [0] []).nmax)) 100
          || sizeOverDistBelowB (maxDim (Node.mk ⟨0, 0, 0⟩ ⟨1, 1, 1⟩ 0 true [0] []).nmin
              (Node.mk ⟨0, 0, 0⟩ ⟨1, 1, 1⟩ 0 true [0] []).nmax)
              (distSqPoints ⟨5, 5, 5⟩ (centerOf (Node.mk ⟨0, 0, 0⟩ ⟨1, 1, 1⟩ 0 true [0] []).nmin
                (Node.mk ⟨0, 0, 0⟩ ⟨1, 1, 1⟩ 0 true [0] []).nmax))) = true →
        getLODRec ⟨5, 5, 5⟩ 0 100 10 (Node.mk ⟨0, 0, 0⟩ ⟨1, 1, 1⟩ 0 true [0] [])
          = ((Node.mk ⟨0, 0, 0⟩ ⟨1, 1, 1⟩ 0 true [0] []).children.filter Node.isLeaf).flatMap
              Node.pointIndices)
    ∧ ((Node.mk ⟨0, 0, 0⟩ ⟨1, 1, 1⟩ 0 true [0] []).isLeaf = false →
        (sqrtGtB (distSqPoints ⟨5, 5, 5⟩ (centerOf (Node.mk ⟨0, 0, 0⟩ ⟨1, 1, 1⟩ 0 true [0] []).nmin
            (Node.mk ⟨0, 0, 0⟩ ⟨1, 1, 1⟩ 0 true [0] []).nmax)) 100
          || sizeOverDistBelowB (maxDim (Node.mk ⟨0, 0, 0⟩ ⟨1, 1, 1⟩ 0 true [0] []).nmin
              (Node.mk ⟨0, 0, 0⟩ ⟨1, 1, 1⟩ 0 true [0] []).nmax)
              (distSqPoints ⟨5, 5, 5⟩ (centerOf (Node.mk ⟨0, 0, 0⟩ ⟨1, 1, 1⟩ 0 true [0] []).nmin
                (Node.mk ⟨0, 0, 0⟩ ⟨1, 1, 1⟩ 0 true [0] []).nmax))) = false →
        getLODRec ⟨5, 5, 5⟩ 0 100 10 (Node.mk ⟨0, 0, 0⟩ ⟨1, 1, 1⟩ 0 true [0] [])
          = (Node.mk ⟨0, 0, 0⟩ ⟨1, 1, 1⟩ 0 true [0] []).children.flatMap
              (getLODRec ⟨5, 5, 5⟩ 0 100 10)) := by
  refine octree_getLOD_branching [⟨0, 0, 0⟩] ⟨0, 0, 0⟩ ⟨1, 1, 1⟩ 1 8 ⟨5, 5, 5⟩ 0 100 10 _ ?_
  rw [octreeBuild_rootD_eq_fuel]
  show Node.mk ⟨0, 0, 0⟩ ⟨1, 1, 1⟩ 0 true [0] []
      ∈ [Node.mk ⟨0, 0, 0⟩ ⟨1, 1, 1⟩ 0 true [0] []]
  exact List.mem_singleton.mpr rfl

/-- Counterexample to C8 as stated: a three-point octree whose root is
internal with one internal child (holding points 0 and 1 two levels down)
and one leaf child (point 2).  At the root the camera distance (150) does
not exceed farThreshold (1000) and the diagonal-based angular size is not
below 0.01 (diag² · 100² = 30000 ≥ distSq = 22500), so the claim prescribes
recursing into the children, which would reach every point; but the code's
maxDim-based test (100² · 1² = 10000 < 22500) makes it use the root
directly, emitting only the leaf child's list [2] and dropping points 0 and
1 entirely. -/
theorem octree_getLOD_counterexample :
    (Octree.build [⟨1/10, 1/10, 1/10⟩, ⟨2/10, 2/10, 2/10⟩, ⟨9/10, 9/10, 9/10⟩]
        ⟨0, 0, 0⟩ ⟨1, 1, 1⟩ 1 2).getLODPoints ⟨301/2, 1/2, 1/2⟩ 0 1000 10 = [2]
    ∧ sqrtGtB (distSqPoints ⟨301/2, 1/2, 1/2⟩ (centerOf ⟨0, 0, 0⟩ ⟨1, 1, 1⟩)) 1000 = false
    ∧ ¬(10000 * boxDiagSq ⟨0, 0, 0⟩ ⟨1, 1, 1⟩
        < distSqPoints ⟨301/2, 1/2, 1/2⟩ (centerOf ⟨0, 0, 0⟩ ⟨1, 1, 1⟩))
    ∧ (Octree.build [⟨1/10, 1/10, 1/10⟩, ⟨2/10, 2/10, 2/10⟩, ⟨9/10, 9/10, 9/10⟩]
        ⟨0, 0, 0⟩ ⟨1, 1, 1⟩ 1 2).rootD.allLeafIndices = [0, 1, 2] := by
  refine ⟨?_, ?_, ?_, ?_⟩
  · show getLODRec ⟨301/2, 1/2, 1/2⟩ 0 1000 10
      (buildRecursive [⟨1/10, 1/10, 1/10⟩, ⟨2/10, 2/10, 2/10⟩, ⟨9/10, 9/10, 9/10⟩]
        (List.range 3) ⟨0, 0, 0⟩ ⟨1, 1, 1⟩ 0 1 2) = [2]
    rw [buildRecursive_eq_fuel _ 1 2 2 _ _ _ 0 (by omega)]
    with_unfolding_all decide
  · with_unfolding_all decide
  · with_unfolding_all decide
  · rw [octreeBuild_rootD_eq_fuel]
    with_unfolding_all decide

/-! The Scene::draw occlusion gate and the occlusion test. -/

/-- Counterexample to C3 as stated: occlusion culling enabled, frustum
culling disabled, one non-point-cloud mesh, occlusion queries unsupported
(with the cached last result still at its initial value true) — Scene::draw
skips the draw on account of occlusion. -/
theorem scene_occlusion_unsupported_skips :
    sceneDrawGate false true [{ (default : MeshData) with vaoValid := true }]
      ⟨0, false, true⟩ ⟨0, 0, 0⟩ ⟨1, 1, 1⟩ (fun _ _ => 0) (fun _ _ => 0)
      = DrawOutcome.skippedByOcclusion := by
  with_unfolding_all decide

/-- C3 amended: with occlusion culling enabled, a non-point-cloud model and
unsupported occlusion queries, Scene::draw always skips the draw (provided
the frustum gate did not already skip it): the !isSupported() disjunct at
Scene.cpp line 23 treats unsupported-but-enabled as a skip.  The occlusion
test itself (OcclusionCuller::testOcclusion) does return visible on
unsupported hardware and leaves its state unchanged. -/
theorem scene_occlusion_unsupported_gate (ef : Bool) (meshes : List MeshData)
    (occ : OcclusionCuller) (mn mx : Vec3) (modelMatrix viewProj : Mat4) (env : QueryEnv)
    (hsup : occ.occlusionQuerySupported = false)
    (hpc : modelIsPointCloud meshes = false)
    (hfr : (ef && !Frustum.intersectsTransformedAABB (extractPlanes viewProj) mn mx modelMatrix)
      = false) :
    sceneDrawGate ef true meshes occ mn mx modelMatrix viewProj
      = DrawOutcome.skippedByOcclusion
    ∧ (occ.testOcclusion env).1 = true
    ∧ (occ.testOcclusion env).2 = occ := by
  refine ⟨?_, ?_, ?_⟩
  · unfold sceneDrawGate
    rw [hfr]
    simp [hsup, hpc]
  · unfold OcclusionCuller.testOcclusion
    simp [hsup]
  · unfold OcclusionCuller.testOcclusion
    simp [hsup]

/-- Witness for C3 amended at a concrete scene state. -/
theorem scene_occlusion_unsupported_gate_witness :
    sceneDrawGate false true [{ (default : MeshData) with vaoValid := true }]
      ⟨1, false, true⟩ ⟨0, 0, 0⟩ ⟨1, 1, 1⟩ (fun _ _ => 0) (fun _ _ => 0)
      = DrawOutcome.skippedByOcclusion
    ∧ (OcclusionCuller.testOcclusion ⟨1, false, true⟩ ⟨false, 0⟩).1 = true
    ∧ (OcclusionCuller.testOcclusion ⟨1, false, true⟩ ⟨false, 0⟩).2 = ⟨1, false, true⟩ :=
  scene_occlusion_unsupported_gate false [{ (default : MeshData) with vaoValid := true }]
    ⟨1, false, true⟩ ⟨0, 0, 0⟩ ⟨1, 1, 1⟩ (fun _ _ => 0) (fun _ _ => 0) ⟨false, 0⟩
    rfl (by with_unfolding_all decide) rfl

/-! GPU upload: vertex-layout and index-width selection. -/

theorem getD_map_lt {α β : Type} (f : α → β) (l : List α) (i : Nat) (h : i < l.length)
    (d : α) (e : β) : (l.map f).getD i e = f (l.getD i d) := by
  rw [List.getD_eq_getElem?_getD, List.getD_eq_getElem?_getD, List.getElem?_map,
    List.getElem?_eq_getElem h]
  simp

theorem uploadToGPU_getD (ms : List MeshData) (dropCpu : Bool) (i : Nat) (h : i < ms.length) :
    (uploadToGPU dropCpu ms).getD i default
      = if dropCpu then (uploadMesh (ms.getD i default)).clearCpu
        else uploadMesh (ms.getD i default) := by
  cases dropCpu with
  | true =>
    show ((ms.map uploadMesh).map MeshData.clearCpu).getD i default
      = (uploadMesh (ms.getD i default)).clearCpu
    rw [getD_map_lt MeshData.clearCpu _ i (by simpa using h) default default,
      getD_map_lt uploadMesh _ i h default default]
  | false =>
    show (ms.map uploadMesh).getD i default = uploadMesh (ms.getD i default)
    rw [getD_map_lt uploadMesh _ i h default default]

theorem uploadMesh_flags (m : MeshData) (hv : m.vaoValid = false) :
    (uploadMesh m).usesOptimizedVertices
      = (!m.isPointCloud && decide (m.vertexCount ≥ Config.VertexOptimizationMinVerts))
    ∧ (uploadMesh m).vbData
      = some (if (!m.isPointCloud && decide (m.vertexCount ≥ Config.VertexOptimizationMinVerts))
          then VBData.optimized (m.vertices.map packOptimized)
          else VBData.standard m.vertices) := by
  simp only [uploadMesh, hv, Bool.false_eq_true, if_false]
  split_ifs <;> simp_all

theorem map_mod_eq_self (l : List Nat) (h : ∀ x ∈ l, x < 65536) :
    l.map (· % 65536) = l := by
  induction l with
  | nil => simp
  | cons a as ih =>
    have ha := h a (List.mem_cons_self a as)
    simp only [List.map_cons, Nat.mod_eq_of_lt ha,
      ih (fun x hx => h x (List.mem_cons_of_mem a hx))]

theorem uploadMesh_indices (m : MeshData) (hv : m.vaoValid = false)
    (hpc : m.isPointCloud = false) (hic : 0 < m.indexCount) :
    (uploadMesh m).uses16BitIndices
      = (decide (m.vertexCount < 65536) && m.indices.all (fun idx => decide (idx < 65536)))
    ∧ ibValues (uploadMesh m).ibData = m.indices := by
  simp only [uploadMesh, hv, Bool.false_eq_true, if_false, hpc, Bool.not_false]
  rw [if_pos (by simp [hic])]
  by_cases hvc : m.vertexCount < 65536
  · rw [if_pos (by simp [hvc])]
    by_cases hall : m.indices.all (fun idx => decide (idx < 65536)) = true
    · rw [if_pos hall]
      refine ⟨by simp [hvc, hall], ?_⟩
      simp only [ibValues]
      apply map_mod_eq_self
      intro x hx
      simpa using List.all_eq_true.mp hall x hx
    · rw [if_neg hall]
      have hall2 : m.indices.all (fun idx => decide (idx < 65536)) = false := by
        simpa [Bool.not_eq_true] using hall
      exact ⟨by simp [hvc, hall2], by simp [ibValues]⟩
  · rw [if_neg (by simp [hvc])]
    exact ⟨by simp [hvc], by simp [ibValues]⟩

/-- Counterexample to C4 as stated: a point-cloud mesh whose vertex count
reaches Config::VertexOptimizationMinVerts nevertheless uploads with
usesOptimizedVertices = false — the flag additionally requires the mesh not
to be a point cloud (Model.cpp line 237 and its comment). -/
theorem upload_pointcloud_not_optimized :
    ((uploadToGPU false [{ (default : MeshData) with isPointCloud := true, vertexCount := 10000 }]).getD 0 default).usesOptimizedVertices = false
    ∧ Config.VertexOptimizationMinVerts ≤ 10000 := by
  constructor
  · rfl
  · decide

/-- C4 amended: after uploadToGPU, a previously un-uploaded mesh has
usesOptimizedVertices set iff it is not a point cloud and its vertex count
is at least Config::VertexOptimizationMinVerts; when set, the vertex buffer
holds the optimized layout in which positions and UVs pass through
floatToHalf while normals, colors and scalar are copied at full precision,
and otherwise it holds the vertices in the uniform full-float layout. -/
theorem upload_optimized_vertices (ms : List MeshData) (dropCpu : Bool) (i : Nat)
    (hi : i < ms.length) (hv : (ms.getD i default).vaoValid = false) :
    ((uploadToGPU dropCpu ms).getD i default).usesOptimizedVertices
      = (!(ms.getD i default).isPointCloud
        && decide ((ms.getD i default).vertexCount ≥ Config.VertexOptimizationMinVerts))
    ∧ ((uploadToGPU dropCpu ms).getD i default).vbData
      = some (if (!(ms.getD i default).isPointCloud
            && decide ((ms.getD i default).vertexCount ≥ Config.VertexOptimizationMinVerts))
          then VBData.optimized ((ms.getD i default).vertices.map packOptimized)
          else VBData.standard (ms.getD i default).vertices) := by
  rw [uploadToGPU_getD ms dropCpu i hi]
  have hm := uploadMesh_flags (ms.getD i default) hv
  by_cases hd : dropCpu
  · simp only [hd, if_true, MeshData.clearCpu]
    exact hm
  · simp only [hd, if_false]
    exact hm

/-- Witness for C4 amended at a concrete large non-point-cloud mesh. -/
theorem upload_optimized_vertices_witness :
    ((uploadToGPU false [{ (default : MeshData) with vertexCount := 10000 }]).getD 0 default).usesOptimizedVertices
      = (!({ (default : MeshData) with vertexCount := 10000 }).isPointCloud
        && decide (({ (default : MeshData) with vertexCount := 10000 }).vertexCount
            ≥ Config.VertexOptimizationMinVerts))
    ∧ ((uploadToGPU false [{ (default : MeshData) with vertexCount := 10000 }]).getD 0 default).vbData
      = some (if (!({ (default : MeshData) with vertexCount := 10000 }).isPointCloud
            && decide (({ (default : MeshData) with vertexCount := 10000 }).vertexCount
                ≥ Config.VertexOptimizationMinVerts))
          then VBData.optimized (({ (default : MeshData) with vertexCount := 10000 }).vertices.map packOptimized)
          else VBData.standard ({ (default : MeshData) with vertexCount := 10000 }).vertices) :=
  upload_optimized_vertices [{ (default : MeshData) with vertexCount := 10000 }] false 0
    (by decide) rfl

/-- Counterexample to C5 as stated: a mesh with 70000 vertices whose three
indices all fit 16 bits still uploads with uses16BitIndices = false — the
flag is gated on vertexCount < 65536 (Model.cpp line 280) before the index
scan ever runs; the 32-bit buffer keeps the exact index values. -/
theorem upload_16bit_requires_vertex_count :
    ((uploadToGPU false [{ (default : MeshData) with vertexCount := 70000, indexCount := 3, indices := [0, 1, 2] }]).getD 0 default).uses16BitIndices = false
    ∧ ([0, 1, 2].all (fun idx => decide (idx < 65536)) = true)
    ∧ ibValues (((uploadToGPU false [{ (default : MeshData) with vertexCount := 70000, indexCount := 3, indices := [0, 1, 2] }]).getD 0 default).ibData) = [0, 1, 2] := by
  refine ⟨rfl, by decide, rfl⟩

/-- C5 amended: after uploadToGPU, a previously un-uploaded indexed
non-point-cloud mesh has uses16BitIndices set iff its vertex count is below
65536 and the explicit validation scan finds every index below 65536; in
every case — 16-bit storage, scan-triggered 32-bit fallback, or direct
32-bit storage — the uploaded element buffer holds exactly the original
index values, with none lost or truncated. -/
theorem upload_index_width (ms : List MeshData) (dropCpu : Bool) (i : Nat)
    (hi : i < ms.length) (hv : (ms.getD i default).vaoValid = false)
    (hpc : (ms.getD i default).isPointCloud = false)
    (hic : 0 < (ms.getD i default).indexCount) :
    ((uploadToGPU dropCpu ms).getD i default).uses16BitIndices
      = (decide ((ms.getD i default).vertexCount < 65536)
        && (ms.getD i default).indices.all (fun idx => decide (idx < 65536)))
    ∧ ibValues (((uploadToGPU dropCpu ms).getD i default).ibData)
      = (ms.getD i default).indices := by
  rw [uploadToGPU_getD ms dropCpu i hi]
  have hm := uploadMesh_indices (ms.getD i default) hv hpc hic
  by_cases hd : dropCpu
  · simp only [hd, if_true, MeshData.clearCpu]
    exact hm
  · simp only [hd, if_false]
    exact hm

/-- Witness for C5 amended at a concrete small indexed mesh. -/
theorem upload_index_width_witness :
    ((uploadToGPU false [{ (default : MeshData) with vertexCount := 3, indexCount := 3, indices := [0, 1, 2] }]).getD 0 default).uses16BitIndices
      = (decide (({ (default : MeshData) with vertexCount := 3, indexCount := 3, indices := [0, 1, 2] }).vertexCount < 65536)
        && ({ (default : MeshData) with vertexCount := 3, indexCount := 3, indices := [0, 1, 2] }).indices.all (fun idx => decide (idx < 65536)))
    ∧ ibValues (((uploadToGPU false [{ (default : MeshData) with vertexCount := 3, indexCount := 3, indices := [0, 1, 2] }]).getD 0 default).ibData)
      = ({ (default : MeshData) with vertexCount := 3, indexCount := 3, indices := [0, 1, 2] }).indices :=
  upload_index_width [{ (default : MeshData) with vertexCount := 3, indexCount := 3, indices := [0, 1, 2] }] false 0 (by decide) rfl rfl (by decide)

/-! Model::drawPointsSubset. -/

theorem le_foldl_max_init {α : Type} [LinearOrder α] (l : List α) :
    ∀ a : α, a ≤ l.foldl max a := by
  induction l with
  | nil => intro a; simp
  | cons b bs ih =>
    intro a
    exact le_trans (le_max_left a b) (ih (max a b))

theorem mem_le_foldl_max {α : Type} [LinearOrder α] (l : List α) :
    ∀ (a x : α), x ∈ l → x ≤ l.foldl max a := by
  induction l with
  | nil => intro _ x hx; cases hx
  | cons b bs ih =>
    intro a x hx
    rcases List.mem_cons.mp hx with rfl | hx
    · exact le_trans (le_max_right a x) (le_foldl_max_init bs (max a x))
    · exact ih (max a b) x hx

/-- C9: Model::drawPointsSubset issues, for any non-empty index list and any
model whose first mesh is an uploaded point cloud, exactly one indexed
GL_POINTS draw bound to mesh slot 0, whose element buffer holds the given
index values unchanged and whose element count is the list length.  The
index values are completely unconstrained — no hypothesis relates them to
the first mesh's vertexCount — so indices produced globally across several
meshes (as Octree.build numbers them, 0..total-1 over the concatenated
meshes) are interpreted as element indices into the first mesh's buffer. -/
theorem drawPointsSubset_first_mesh (meshes : List MeshData) (indices : List Nat)
    (hne : meshes.isEmpty = false)
    (hpc : (meshes.headD default).isPointCloud = true)
    (hvao : (meshes.headD default).vaoValid = true)
    (hidx : indices.isEmpty = false) :
    drawPointsSubset meshes indices
      = some ⟨0, indices, indices.length, decide (indices.foldl max 0 < 65536)⟩ := by
  unfold drawPointsSubset
  rw [if_neg (by simp [hidx]), if_pos (by
    simp only [hne, Bool.not_false, Bool.true_and, Bool.and_eq_true]
    exact ⟨hpc, hvao⟩)]
  by_cases hmax : indices.foldl max 0 < 65536
  · rw [if_pos (decide_eq_true hmax)]
    have hmap : indices.map (· % 65536) = indices := by
      apply map_mod_eq_self
      intro x hx
      exact lt_of_le_of_lt (mem_le_foldl_max indices 0 x hx) hmax
    rw [hmap, decide_eq_true hmax]
  · rw [if_neg (by simpa using hmax), decide_eq_false hmax]

/-- Witness for C9: a one-mesh point cloud with a single vertex drawn with
indices [0, 70000] — the draw command targets mesh 0 and carries both
indices although 70000 exceeds the vertex count. -/
theorem drawPointsSubset_first_mesh_witness :
    drawPointsSubset [{ (default : MeshData) with isPointCloud := true, vaoValid := true, vertexCount := 1 }] [0, 70000]
      = some ⟨0, [0, 70000], 2, decide ([0, 70000].foldl max 0 < 65536)⟩ :=
  drawPointsSubset_first_mesh [{ (default : MeshData) with isPointCloud := true, vaoValid := true, vertexCount := 1 }]
    [0, 70000] rfl rfl rfl rfl

/-! Scalar-range normalization. -/

theorem foldl_min_ge_of {α : Type} [LinearOrder α] (l : List α) :
    ∀ (a c : α), c ≤ a → (∀ x ∈ l, c ≤ x) → c ≤ l.foldl min a := by
  induction l with
  | nil => intro a c hc _; simpa using hc
  | cons b bs ih =>
    intro a c hc h
    exact ih (min a b) c (le_min hc (h b (List.mem_cons_self b bs)))
      (fun x hx => h x (List.mem_cons_of_mem b hx))

theorem foldl_max_le_of {α : Type} [LinearOrder α] (l : List α) :
    ∀ (a c : α), a ≤ c → (∀ x ∈ l, x ≤ c) → l.foldl max a ≤ c := by
  induction l with
  | nil => intro a c hc _; simpa using hc
  | cons b bs ih =>
    intro a c hc h
    exact ih (max a b) c (max_le hc (h b (List.mem_cons_self b bs)))
      (fun x hx => h x (List.mem_cons_of_mem b hx))

theorem scalarFold_fst_ge (meshScalars : List (List ℚ)) :
    ∀ (acc : ℚ × ℚ) (c : ℚ), c ≤ acc.1 → (∀ s ∈ meshScalars, c ≤ (meshScalarRange s).1) →
    c ≤ (meshScalars.foldl
      (fun acc s => (min acc.1 (meshScalarRange s).1, max acc.2 (meshScalarRange s).2))
      acc).1 := by
  induction meshScalars with
  | nil => intro acc c hc _; simpa using hc
  | cons s ss ih =>
    intro acc c hc h
    exact ih _ c (le_min hc (h s (List.mem_cons_self s ss)))
      (fun t ht => h t (List.mem_cons_of_mem s ht))

theorem scalarFold_snd_le (meshScalars : List (List ℚ)) :
    ∀ (acc : ℚ × ℚ) (c : ℚ), acc.2 ≤ c → (∀ s ∈ meshScalars, (meshScalarRange s).2 ≤ c) →
    (meshScalars.foldl
      (fun acc s => (min acc.1 (meshScalarRange s).1, max acc.2 (meshScalarRange s).2))
      acc).2 ≤ c := by
  induction meshScalars with
  | nil => intro acc c hc _; simpa using hc
  | cons s ss ih =>
    intro acc c hc h
    exact ih _ c (max_le hc (h s (List.mem_cons_self s ss)))
      (fun t ht => h t (List.mem_cons_of_mem s ht))

/-- C10: when the aggregated scalar range comes out degenerate (computed
maximum at most computed minimum), loadFromFile normalizes it to [0, 1];
in particular a model whose vertices all carry the same scalar value V
(within float range) reports the range (0, 1), not (V, V). -/
theorem model_scalar_range_degenerate (meshScalars : List (List ℚ)) :
    ((meshScalars.foldl
        (fun acc s => (min acc.1 (meshScalarRange s).1, max acc.2 (meshScalarRange s).2))
        (fltMax, -fltMax)).2
      ≤ (meshScalars.foldl
        (fun acc s => (min acc.1 (meshScalarRange s).1, max acc.2 (meshScalarRange s).2))
        (fltMax, -fltMax)).1
      → loadScalarRange meshScalars = (0, 1))
    ∧ (∀ V : ℚ, -fltMax ≤ V → V ≤ fltMax →
        (∀ s ∈ meshScalars, ∀ x ∈ s, x = V) →
        loadScalarRange meshScalars = (0, 1)) := by
  constructor
  · intro h
    unfold loadScalarRange
    rw [if_pos h]
  · intro V hV1 hV2 huni
    unfold loadScalarRange
    rw [if_pos ?_]
    have hfst : V ≤ (meshScalars.foldl
        (fun acc s => (min acc.1 (meshScalarRange s).1, max acc.2 (meshScalarRange s).2))
        (fltMax, -fltMax)).1 := by
      apply scalarFold_fst_ge meshScalars (fltMax, -fltMax) V hV2
      intro s hs
      unfold meshScalarRange
      exact foldl_min_ge_of s fltMax V hV2 (fun x hx => (huni s hs x hx).symm.le)
    have hsnd : (meshScalars.foldl
        (fun acc s => (min acc.1 (meshScalarRange s).1, max acc.2 (meshScalarRange s).2))
        (fltMax, -fltMax)).2 ≤ V := by
      apply scalarFold_snd_le meshScalars (fltMax, -fltMax) V hV1
      intro s hs
      unfold meshScalarRange
      exact foldl_max_le_of s (-fltMax) V hV1 (fun x hx => (huni s hs x hx).le)
    exact le_trans hsnd hfst

/-- Witness for C10: a single mesh whose three vertices all carry scalar 5
yields the normalized range (0, 1). -/
theorem model_scalar_range_degenerate_witness :
    loadScalarRange [[5, 5, 5]] = (0, 1) :=
  (model_scalar_range_degenerate [[5, 5, 5]]).2 5 (by unfold fltMax; norm_num)
    (by unfold fltMax; norm_num) (by decide)

end Graphics
